import Mathlib

/-!
Verification of the StudentRegistry repository's Student Lifecycle &
Reconciliation Engine.

The definitions below are a shallow embedding of the JavaScript source:

* `Frontend` models the Calendar/Cycle Resolver helpers of the frontend
  application file (`src/unnamed/part_005`, lines 694-825):
  `gradeOrder`, `getCycleStatus`, `calculateGradeFromCycle`,
  `calculateCycleFromGrade`, `getCurrentYear`.
* `StudentModel` models `src/backend/db.js`: the `students` /
  `student_history` tables (including the UNIQUE constraint on `id_number`
  and the `student_history.student_id REFERENCES students(id) ON DELETE
  CASCADE` foreign key) and the model functions `search` (specialised to
  the `idNumber` filter, the only filter the reconciliation engine uses),
  `getById`, `create`, `update`, `delete`.
* `Server` models the bulk reconciliation endpoints of
  `src/backend/server.js` (`/upload-excel`, lines 733-996, and
  `/upload-pasted`, lines 999-1139).

Modelling conventions:
* Timestamps are a logical clock (`DB.clock : Nat`).  Every SQL statement
  executed through the connection pool is auto-committed and advances the
  clock by one, reflecting that `CURRENT_TIMESTAMP` is evaluated anew for
  each statement (the source opens no transaction anywhere).
* A statement that fails (unique-constraint or foreign-key violation)
  raises; the JavaScript `try`/`catch` structure is modelled with
  `Except String`.  State committed by earlier statements persists across
  a later failure, exactly as with an auto-committing pool.
* JavaScript strings are Lean `String`s.  `x || ''` applied to a string
  is the identity on strings (only `''` is falsy), so field comparisons
  `(a || '') !== (b || '')` are plain string disequality.  All `NOT NULL`
  columns are `String` fields.
* `parseDec` models `parseInt` restricted to canonical decimal numerals,
  which is the only shape of string the modelled call sites parse
  (stored `cycle` values and `String(year)` renderings).
-/

/-! ## Decimal numerals: the model of String(n) and parseInt -/

/-- The decimal digit character for `d` (defined for `d < 10`; the final
arm is unreachable at every call site). -/
def decChar : Nat → Char
  | 0 => '0'
  | 1 => '1'
  | 2 => '2'
  | 3 => '3'
  | 4 => '4'
  | 5 => '5'
  | 6 => '6'
  | 7 => '7'
  | 8 => '8'
  | _ => '9'

/-- Inverse of `decChar` on digit characters (code points 48-57). -/
def charDigit? (c : Char) : Option Nat :=
  if 48 ≤ c.toNat ∧ c.toNat ≤ 57 then some (c.toNat - 48) else none

/-- Decimal digit characters of `n`, most significant first.  The first
argument is structural fuel; `natToDec` supplies enough. -/
def natToDecAux : Nat → Nat → List Char
  | 0, _ => []
  | fuel + 1, n =>
    if n < 10 then [decChar n]
    else natToDecAux fuel (n / 10) ++ [decChar (n % 10)]

/-- Model of JavaScript `String(n)` / `n.toString()` for a non-negative
integer `n`. -/
def natToDec (n : Nat) : String := String.mk (natToDecAux (n + 1) n)

/-- Parse a list of characters as decimal digits. -/
def parseDigits? : List Char → Option (List Nat)
  | [] => some []
  | c :: cs =>
    match charDigit? c, parseDigits? cs with
    | some d, some ds => some (d :: ds)
    | _, _ => none

/-- Numeric value of a digit list under a left fold. -/
def parseVal (ds : List Nat) (acc : Nat) : Nat :=
  ds.foldl (fun a d => a * 10 + d) acc

/-- Model of `parseInt` on the canonical decimal numerals that the
modelled code parses (`isNaN` checks map to `none`). -/
def parseDec (s : String) : Option Nat :=
  if s.data.isEmpty then none
  else
    match parseDigits? s.data with
    | some ds => some (parseVal ds 0)
    | none => none

theorem charDigit?_decChar (d : Nat) (h : d < 10) :
    charDigit? (decChar d) = some d := by
  interval_cases d <;> decide

theorem parseDigits?_append (xs ys : List Char) :
    parseDigits? (xs ++ ys) =
      match parseDigits? xs, parseDigits? ys with
      | some ds, some es => some (ds ++ es)
      | _, _ => none := by
  induction xs with
  | nil => cases h : parseDigits? ys <;> simp [parseDigits?, h]
  | cons c cs ih =>
    simp only [List.cons_append, parseDigits?, List.append_eq, ih]
    cases hc : charDigit? c <;> cases h1 : parseDigits? cs <;>
      cases h2 : parseDigits? ys <;> simp [h1, h2]

theorem parseVal_append (xs ys : List Nat) (acc : Nat) :
    parseVal (xs ++ ys) acc = parseVal ys (parseVal xs acc) := by
  simp [parseVal, List.foldl_append]

theorem natToDecAux_spec : ∀ fuel n, n < fuel →
    ∃ ds, parseDigits? (natToDecAux fuel n) = some ds ∧ ds ≠ [] ∧
      ∀ acc, parseVal ds acc = acc * 10 ^ ds.length + n := by
  intro fuel
  induction fuel with
  | zero => intro n h; omega
  | succ fuel ih =>
    intro n h
    by_cases h10 : n < 10
    · refine ⟨[n], ?_, by simp, ?_⟩
      · simp [natToDecAux, h10, parseDigits?, charDigit?_decChar n h10]
      · intro acc; simp [parseVal]
    · have hdiv : n / 10 < n := Nat.div_lt_self (by omega) (by omega)
      obtain ⟨ds, hds, hne, hval⟩ := ih (n / 10) (by omega)
      refine ⟨ds ++ [n % 10], ?_, by simp, ?_⟩
      · simp only [natToDecAux, if_neg h10, parseDigits?_append, hds]
        have : parseDigits? [decChar (n % 10)] = some [n % 10] := by
          simp [parseDigits?, charDigit?_decChar (n % 10) (Nat.mod_lt n (by omega))]
        simp [this]
      · intro acc
        rw [parseVal_append, hval acc]
        have : parseVal [n % 10] (acc * 10 ^ ds.length + n / 10)
            = (acc * 10 ^ ds.length + n / 10) * 10 + n % 10 := by
          simp [parseVal]
        rw [this]
        have hmod := Nat.div_add_mod n 10
        have : (ds ++ [n % 10]).length = ds.length + 1 := by simp
        rw [this]
        ring_nf
        omega

theorem parseDec_natToDec (n : Nat) : parseDec (natToDec n) = some n := by
  obtain ⟨ds, hds, hne, hval⟩ := natToDecAux_spec (n + 1) n (by omega)
  have hchars : natToDecAux (n + 1) n ≠ [] := by
    intro hnil
    rw [hnil] at hds
    simp [parseDigits?] at hds
    exact hne hds
  simp only [parseDec, natToDec]
  rw [if_neg (by simpa [List.isEmpty_iff] using hchars)]
  simp only [hds]
  have := hval 0
  simp at this
  simp [this]

theorem natToDec_ne_empty (n : Nat) : (natToDec n == "") = false := by
  obtain ⟨ds, hds, hne, _⟩ := natToDecAux_spec (n + 1) n (by omega)
  have hchars : natToDecAux (n + 1) n ≠ [] := by
    intro hnil
    rw [hnil] at hds
    simp [parseDigits?] at hds
    exact hne hds
  rw [beq_eq_false_iff_ne]
  intro hEq
  apply hchars
  have : (natToDec n).data = ("" : String).data := by rw [hEq]
  simpa [natToDec] using this

/-! ## Case-insensitive substring matching: the model of ILIKE '%q%' -/

/-- Does `hay` start with `needle`? -/
def startsChk : List Char → List Char → Bool
  | [], _ => true
  | _ :: _, [] => false
  | a :: as, b :: bs => a == b && startsChk as bs

/-- Is `needle` a contiguous sublist of `hay`? -/
def subChk : List Char → List Char → Bool
  | needle, [] => needle.isEmpty
  | needle, c :: rest => startsChk needle (c :: rest) || subChk needle rest

/-- Substring test on strings. -/
def strContains (hay needle : String) : Bool := subChk needle.data hay.data

/-- ASCII lower-casing of a string (the effect of ILIKE's case folding;
Hebrew letters and digits are fixed points). -/
def lowerStr (s : String) : String := String.mk (s.data.map Char.toLower)

/-- Model of the SQL predicate `col ILIKE '%' || q || '%'` (db.js line
204): case-insensitive containment of `q` in the stored value. -/
def ilike (stored q : String) : Bool :=
  strContains (lowerStr stored) (lowerStr q)

theorem startsChk_refl (l : List Char) : startsChk l l = true := by
  induction l with
  | nil => rfl
  | cons a as ih => simp [startsChk, ih]

theorem startsChk_append (l rest : List Char) :
    startsChk l (l ++ rest) = true := by
  induction l with
  | nil => rfl
  | cons a as ih => simp [startsChk, ih]

theorem subChk_here (needle rest : List Char) :
    subChk needle (needle ++ rest) = true := by
  cases needle with
  | nil => cases rest <;> simp [subChk, startsChk]
  | cons a as =>
    rw [List.cons_append, subChk]
    rw [← List.cons_append, startsChk_append]
    simp

theorem subChk_append_left (needle pre hay : List Char)
    (h : subChk needle hay = true) : subChk needle (pre ++ hay) = true := by
  induction pre with
  | nil => simpa using h
  | cons c cs ih =>
    simp [subChk]
    right
    exact ih

theorem strContains_append (a k b : String) :
    strContains (a ++ k ++ b) k = true := by
  have hdata : (a ++ k ++ b).data = a.data ++ (k.data ++ b.data) := by
    simp
  simp only [strContains, hdata]
  exact subChk_append_left _ _ _ (subChk_here _ _)

theorem ilike_refl (s : String) : ilike s s = true := by
  simp only [ilike, strContains, lowerStr]
  cases hl : (s.data.map Char.toLower) with
  | nil => simp [subChk]
  | cons c cs =>
    have : subChk (c :: cs) ((c :: cs) ++ []) = true := subChk_here _ _
    simpa using this

/-! ## Calendar/Cycle Resolver (src/unnamed/part_005, lines 694-825)

`getCurrentYear()` reads the system clock; it is injected here as the
`nowYear` argument of the functions that default to it when their
`currentYear` argument is absent/zero (JavaScript falsy). -/

namespace Frontend

/-- part_005 line 695: the six grade ordinals. -/
def gradeOrder : List String :=
  ["ט\x27", "י\x27", "י\"א", "י\"ב", "י\"ג", "י\"ד"]

/-- part_005 line 697. -/
def LAST_GRADE_INDEX : Nat := gradeOrder.length - 1

/-- part_005 lines 806-820: the academic year for a given calendar year
and month (1-12); rolls over in September. -/
def getCurrentYear (year month : Nat) : Nat :=
  if month ≥ 9 then year else year - 1

/-- part_005 lines 704-725: classify a cycle as active/ended/future
relative to `currentYear` (defaulting to `nowYear` when falsy). -/
def getCycleStatus (nowYear : Nat) (cycle : String) (currentYear : Nat) :
    Option String :=
  if cycle == "" then none
  else
    let cy := if currentYear == 0 then nowYear else currentYear
    match parseDec cycle with
    | none => none
    | some cycleYear =>
      let yearDiff : Int := (cy : Int) - (cycleYear : Int)
      if yearDiff < 0 then some "future"
      else if yearDiff > (LAST_GRADE_INDEX : Int) then some "ended"
      else some "active"

/-- part_005 lines 728-746: the grade derived from a cycle, defined only
while the cycle is active. -/
def calculateGradeFromCycle (nowYear : Nat) (cycle : String)
    (currentYear : Nat) : Option String :=
  if cycle == "" then none
  else
    let cy := if currentYear == 0 then nowYear else currentYear
    if getCycleStatus nowYear cycle cy == some "active" then
      match parseDec cycle with
      | none => none
      | some cycleYear => gradeOrder.get? ((cy : Int) - (cycleYear : Int)).toNat
    else none

/-- part_005 lines 791-804: the cycle recomputed from a grade, `none`
when the grade is unrecognised or the cycle falls outside the window
`[2000, currentYear + 1]`. -/
def calculateCycleFromGrade (grade : String) (currentYear : Nat) :
    Option String :=
  if grade == "" || currentYear == 0 then none
  else
    match gradeOrder.findIdx? (fun g => g == grade) with
    | none => none
    | some gradeIndex =>
      let cycleYear : Int := (currentYear : Int) - (gradeIndex : Int)
      if cycleYear < 2000 || cycleYear > (currentYear : Int) + 1 then none
      else some (natToDec cycleYear.toNat)

end Frontend

/-! ## Data model (src/backend/db.js, lines 33-77)

`students` rows and `student_history` rows.  `DB` is the database state:
both tables, the two SERIAL sequences, and the logical clock. -/

/-- One row of the `students` table (all columns are NOT NULL; db.js
lines 33-48).  `createdAt`/`updatedAt` are logical-clock values. -/
structure Student where
  id : Nat
  idNumber : String
  lastName : String
  firstName : String
  grade : String
  stream : String
  gender : String
  track : String
  status : String
  cycle : String
  createdAt : Nat
  updatedAt : Nat
deriving DecidableEq, Repr

/-- One row of the `student_history` table (db.js lines 56-69).
`student_id` is NOT NULL and REFERENCES students(id) ON DELETE CASCADE. -/
structure HistoryEvent where
  id : Nat
  studentId : Nat
  changeType : String
  fieldName : Option String
  oldValue : Option String
  newValue : Option String
  location : Option String
  changedBy : Option String
  changeDescription : String
  createdAt : Nat
deriving DecidableEq, Repr

/-- The database state.  `students` is kept in ascending-id order (the
well-formedness invariant below), so a filter of the list models a query
with ORDER BY id ASC. -/
structure DB where
  students : List Student
  history : List HistoryEvent
  nextStudentId : Nat
  nextHistoryId : Nat
  clock : Nat
deriving DecidableEq, Repr

/-- Advance the logical clock by one executed SQL statement. -/
def DB.tick (db : DB) : DB := { db with clock := db.clock + 1 }

/-- The empty database (schema created, no rows). -/
def DB.empty : DB := ⟨[], [], 1, 1, 0⟩

/-- Database well-formedness: the invariants PostgreSQL maintains for
this schema — ascending SERIAL ids (hence unique, and list order = ORDER
BY id ASC), sequences ahead of all ids, the UNIQUE constraint on
`id_number`, and the `student_history.student_id` foreign key. -/
def DB.WF (db : DB) : Prop :=
  List.Pairwise (fun a b => a.id < b.id) db.students ∧
  (∀ s ∈ db.students, s.id < db.nextStudentId) ∧
  List.Pairwise (fun a b => a.idNumber ≠ b.idNumber) db.students ∧
  (∀ e ∈ db.history, ∃ s ∈ db.students, s.id = e.studentId) ∧
  (∀ e ∈ db.history, e.id < db.nextHistoryId)

instance (db : DB) : Decidable db.WF :=
  inferInstanceAs (Decidable (
    List.Pairwise (fun a b : Student => a.id < b.id) db.students ∧
    (∀ s ∈ db.students, s.id < db.nextStudentId) ∧
    List.Pairwise (fun a b : Student => a.idNumber ≠ b.idNumber) db.students ∧
    (∀ e ∈ db.history, ∃ s ∈ db.students, s.id = e.studentId) ∧
    (∀ e ∈ db.history, e.id < db.nextHistoryId)))

/-- The candidate column values supplied to an INSERT or UPDATE of
`students` (the `studentData` object of db.js). -/
structure StudentData where
  idNumber : String
  lastName : String
  firstName : String
  grade : String
  stream : String
  gender : String
  track : String
  status : String
  cycle : String
deriving DecidableEq, Repr

/-- Primary error message of a PostgreSQL unique-constraint violation on
`students.id_number`. -/
def dupKeyMsg : String :=
  "duplicate key value violates unique constraint \"students_id_number_key\""

/-- Primary error message of a PostgreSQL foreign-key violation on
`student_history.student_id`. -/
def fkViolationMsg : String :=
  "insert or update on table \"student_history\" violates foreign key constraint \"student_history_student_id_fkey\""

/-- Field values for an INSERT into `student_history`.  `createdAtOverride`
models an explicit `created_at` column value; otherwise the column
defaults to CURRENT_TIMESTAMP. -/
structure HistInsert where
  studentId : Nat
  changeType : String
  fieldName : Option String := none
  oldValue : Option String := none
  newValue : Option String := none
  location : Option String := none
  changedBy : Option String := none
  changeDescription : String
  createdAtOverride : Option Nat := none
deriving Repr

/-- Model of `INSERT INTO student_history ...` — enforces the foreign
key to `students(id)`. -/
def insertHistory (db : DB) (h : HistInsert) :
    Except String HistoryEvent × DB :=
  if db.students.any (fun s => s.id == h.studentId) then
    let e : HistoryEvent :=
      { id := db.nextHistoryId, studentId := h.studentId,
        changeType := h.changeType, fieldName := h.fieldName,
        oldValue := h.oldValue, newValue := h.newValue,
        location := h.location, changedBy := h.changedBy,
        changeDescription := h.changeDescription,
        createdAt := h.createdAtOverride.getD db.clock }
    (Except.ok e,
      { db with history := db.history ++ [e],
                nextHistoryId := db.nextHistoryId + 1,
                clock := db.clock + 1 })
  else (Except.error fkViolationMsg, db.tick)

/-- Model of `INSERT INTO students ...` — enforces the UNIQUE constraint
on `id_number` and assigns the SERIAL id and timestamp defaults. -/
def insertStudent (db : DB) (d : StudentData) : Except String Student × DB :=
  if db.students.any (fun s => s.idNumber == d.idNumber) then
    (Except.error dupKeyMsg, db.tick)
  else
    let s : Student :=
      { id := db.nextStudentId, idNumber := d.idNumber,
        lastName := d.lastName, firstName := d.firstName,
        grade := d.grade, stream := d.stream, gender := d.gender,
        track := d.track, status := d.status, cycle := d.cycle,
        createdAt := db.clock, updatedAt := db.clock }
    (Except.ok s,
      { db with students := db.students ++ [s],
                nextStudentId := db.nextStudentId + 1,
                clock := db.clock + 1 })

/-- The row produced by the UPDATE of db.js lines 375-413: every column
replaced from `studentData`, `updated_at` set to CURRENT_TIMESTAMP. -/
def applyData (t : Student) (d : StudentData) (now : Nat) : Student :=
  { id := t.id, idNumber := d.idNumber, lastName := d.lastName,
    firstName := d.firstName, grade := d.grade, stream := d.stream,
    gender := d.gender, track := d.track, status := d.status,
    cycle := d.cycle, createdAt := t.createdAt, updatedAt := now }

/-- Model of `UPDATE students SET ... WHERE id = $10 RETURNING ...` —
enforces the UNIQUE constraint on `id_number` against the other rows. -/
def updateStudentRow (db : DB) (id : Nat) (d : StudentData) :
    Except String (Option Student) × DB :=
  match db.students.find? (fun t => t.id == id) with
  | none => (Except.ok none, db.tick)
  | some t =>
    if db.students.any (fun u => u.id != id && u.idNumber == d.idNumber) then
      (Except.error dupKeyMsg, db.tick)
    else
      (Except.ok (some (applyData t d db.clock)),
        { db with
            students := db.students.map
              (fun u => if u.id == id then applyData u d db.clock else u),
            clock := db.clock + 1 })

namespace StudentModel

/-- db.js lines 180-265 (`StudentModel.search`), specialised to the one
search parameter the reconciliation engine passes: `{ idNumber }`, which
adds `AND id_number ILIKE '%' || q || '%'` (lines 203-207) and orders by
id ascending. -/
def searchIdNumber (db : DB) (q : String) : List Student × DB :=
  (db.students.filter (fun s => ilike s.idNumber q), db.tick)

/-- db.js lines 267-292 (`StudentModel.getById`). -/
def getById (db : DB) (id : Nat) : Option Student × DB :=
  (db.students.find? (fun t => t.id == id), db.tick)

/-- db.js lines 294-364 (`StudentModel.create`): INSERT the row, SELECT
its `created_at`, INSERT a `start_studies` event backdated to it, then
INSERT a `created` event with the default timestamp. -/
def create (db : DB) (d : StudentData)
    (userId location : Option String) : Except String Student × DB :=
  match insertStudent db d with
  | (Except.error e, db) => (Except.error e, db)
  | (Except.ok s, db) =>
    -- SELECT created_at FROM students WHERE id = $1
    let startDate :=
      (((db.students.find? (fun t => t.id == s.id)).map
        (fun t => t.createdAt)).getD 0)
    let db := db.tick
    match insertHistory db
      { studentId := s.id, changeType := "start_studies",
        location := location, changedBy := userId,
        changeDescription := "התחלת לימודים - " ++ d.firstName ++ " " ++
          d.lastName ++ " (ת.ז: " ++ d.idNumber ++ ")",
        createdAtOverride := some startDate } with
    | (Except.error e, db) => (Except.error e, db)
    | (Except.ok _, db) =>
      match insertHistory db
        { studentId := s.id, changeType := "created",
          location := location, changedBy := userId,
          changeDescription := "נוצר תלמיד חדש: " ++ d.firstName ++ " " ++
            d.lastName ++ " (ת.ז: " ++ d.idNumber ++ ")" } with
      | (Except.error e, db) => (Except.error e, db)
      | (Except.ok _, db) => (Except.ok s, db)

/-- One entry of the `fieldsToTrack` array (db.js lines 418-428). -/
structure FieldTrack where
  db : String
  name : String
  old : String
  new : String
deriving DecidableEq, Repr

/-- db.js lines 418-428: the tracked fields, with display labels, old
values from the freshly loaded record and new values from the caller. -/
def fieldsToTrack (oldS : Student) (d : StudentData) : List FieldTrack :=
  [ ⟨"id_number", "תעודת זהות", oldS.idNumber, d.idNumber⟩,
    ⟨"last_name", "שם משפחה", oldS.lastName, d.lastName⟩,
    ⟨"first_name", "שם פרטי", oldS.firstName, d.firstName⟩,
    ⟨"grade", "כיתה", oldS.grade, d.grade⟩,
    ⟨"stream", "מקבילה", oldS.stream, d.stream⟩,
    ⟨"gender", "מין", oldS.gender, d.gender⟩,
    ⟨"track", "מגמה", oldS.track, d.track⟩,
    ⟨"status", "סטטוס", oldS.status, d.status⟩,
    ⟨"cycle", "מחזור", oldS.cycle, d.cycle⟩ ]

/-- db.js lines 430-446: for every tracked field whose old value differs
from the new one, INSERT a `field_update` history event. -/
def logFieldChanges (db : DB) (id : Nat) (fs : List FieldTrack)
    (userId location : Option String) : Except String Unit × DB :=
  match fs with
  | [] => (Except.ok (), db)
  | f :: rest =>
    if f.old != f.new then
      match insertHistory db
        { studentId := id, changeType := "field_update",
          fieldName := some f.name, oldValue := some f.old,
          newValue := some f.new, location := location,
          changedBy := userId,
          changeDescription := f.name ++ " שונה מ-\"" ++ f.old ++
            "\" ל-\"" ++ f.new ++ "\"" } with
      | (Except.error e, db) => (Except.error e, db)
      | (Except.ok _, db) => logFieldChanges db id rest userId location
    else logFieldChanges db id rest userId location

/-- db.js lines 366-453 (`StudentModel.update`): load the old row
(`null` when absent), UPDATE every column, then log one `field_update`
event per changed tracked field. -/
def update (db : DB) (id : Nat) (d : StudentData)
    (userId location : Option String) :
    Except String (Option Student) × DB :=
  match getById db id with
  | (none, db) => (Except.ok none, db)
  | (some oldS, db) =>
    match updateStudentRow db id d with
    | (Except.error e, db) => (Except.error e, db)
    | (Except.ok upd, db) =>
      match logFieldChanges db id (fieldsToTrack oldS d) userId location with
      | (Except.error e, db) => (Except.error e, db)
      | (Except.ok _, db) => (Except.ok upd, db)

/-- db.js lines 455-484 (`StudentModel.delete`): load the row for the
description (`null` when absent), DELETE it (the foreign key cascades,
removing its history), then INSERT a `deleted` history event for the
removed id. -/
def delete (db : DB) (id : Nat) (userId location : Option String) :
    Except String (Option Nat) × DB :=
  match getById db id with
  | (none, db) => (Except.ok none, db)
  | (some s, db) =>
    -- DELETE FROM students WHERE id = $1 (ON DELETE CASCADE on history)
    let db := DB.tick
      { db with students := db.students.filter (fun t => !(t.id == id)),
                history := db.history.filter (fun e => !(e.studentId == id)) }
    match insertHistory db
      { studentId := id, changeType := "deleted",
        location := location, changedBy := userId,
        changeDescription := "תלמיד נמחק: " ++ s.firstName ++ " " ++
          s.lastName ++ " (ת.ז: " ++ s.idNumber ++ ")" } with
    | (Except.error e, db) => (Except.error e, db)
    | (Except.ok _, db) => (Except.ok (some id), db)

end StudentModel

/-! ## Bulk reconciliation (src/backend/server.js)

The `/upload-excel` endpoint (lines 733-996) and the `/upload-pasted`
endpoint (lines 999-1139).  Spreadsheet parsing mechanics (XLSX cell
extraction) are outside the modelled core; a `Sheet` carries the A1 cell,
the header-row strings and the already-extracted data rows.  The source
normalises each row inside the loop body; the per-row normalisation is
pure, so it is applied here as a map over the sheet's rows. -/

namespace Server

/-- One raw candidate row of a bulk import (spec §6 RawRow). -/
structure RawRow where
  idNumber : String
  lastName : String
  firstName : String
  grade : String
  stream : String
  gender : String
  track : String
deriving DecidableEq, Repr

/-- JavaScript-falsy check used by the empty-row filters (server.js
lines 848, 1026): an empty string is falsy. -/
def eligible (d : RawRow) : Bool :=
  !(d.idNumber == "") && !(d.lastName == "") && !(d.firstName == "")

/-- Whitespace characters removed by `String.prototype.trim` (the
common ones; the full JS set also has unicode spaces). -/
def isWSChar (c : Char) : Bool :=
  c == ' ' || c == '\t' || c == '\n' || c == '\r'

/-- Model of `String(x).trim()`. -/
def trimStr (s : String) : String :=
  String.mk (((s.data.dropWhile isWSChar).reverse.dropWhile isWSChar).reverse)

/-- server.js lines 817-825: the `gradeMap` normalising bare grade
letters to the canonical quoted ordinals; unrecognised values pass
through. -/
def gradeMapLookup (g : String) : String :=
  if g == "ט" then "ט\x27"
  else if g == "י" then "י\x27"
  else if g == "יא" then "י\"א"
  else if g == "יב" then "י\"ב"
  else if g == "יג" then "י\"ג"
  else if g == "יד" then "י\"ד"
  else g

/-- server.js lines 829-835: the `genderMap`; unrecognised values pass
through. -/
def genderMapLookup (g : String) : String :=
  if g == "ז" then "זכר"
  else if g == "נ" then "נקבה"
  else if g == "זכר" then "זכר"
  else if g == "נקבה" then "נקבה"
  else g

/-- server.js lines 815-845: build `studentData` from an Excel row —
trim every cell, normalise the grade and the gender. -/
def normalizeExcelRow (r : RawRow) : RawRow :=
  { idNumber := trimStr r.idNumber,
    lastName := trimStr r.lastName,
    firstName := trimStr r.firstName,
    grade := gradeMapLookup (trimStr r.grade),
    stream := trimStr r.stream,
    gender := genderMapLookup (trimStr r.gender),
    track := trimStr r.track }

/-- server.js lines 860, 932, 1017: the grade order used by the
reconciliation cycle computation. -/
def gradeOrder : List String :=
  ["ט\x27", "י\x27", "י\"א", "י\"ב", "י\"ג", "י\"ד"]

/-- server.js lines 871-872, 946-947: strip geresh/gershayim quote
characters from a grade label. -/
def stripQuotes (s : String) : String :=
  String.mk (s.data.filter (fun c => !(c == '"') && !(c == '\x27')))

/-- server.js lines 868-873 and 943-948: locate the grade in
`gradeOrder`, first exactly, then after stripping quote marks. -/
def findGradeIndex (grade : String) : Option Nat :=
  match gradeOrder.findIdx? (fun g => g == grade) with
  | some i => some i
  | none =>
    gradeOrder.findIdx? (fun g => stripQuotes g == stripQuotes grade)

/-- server.js lines 875-883 and 950-958: the cycle recomputed from the
row's grade and the current academic year, `none` when the grade is
unrecognised or the value falls outside `[2000, academicYear + 1]`. -/
def calcCycleOpt (ay : Nat) (grade : String) : Option Nat :=
  match findGradeIndex grade with
  | none => none
  | some gradeIndex =>
    let c : Int := (ay : Int) - (gradeIndex : Int)
    if 2000 ≤ c ∧ c ≤ (ay : Int) + 1 then some c.toNat else none

/-- The cycle used when updating an existing student (server.js lines
866-886): the recomputed value when available, otherwise the existing
record's stored cycle. -/
def updCycle (ay : Nat) (grade : String) (existingCycle : String) : String :=
  match calcCycleOpt ay grade with
  | some c => natToDec c
  | none => existingCycle

/-- The cycle used when creating a new student (server.js lines
941-966): the recomputed value when available, otherwise the bare
current academic year. -/
def createCycle (ay : Nat) (grade : String) : String :=
  natToDec ((calcCycleOpt ay grade).getD ay)

/-- server.js lines 889-908: the change-detection comparison across
`fieldsToCheck` = {lastName, firstName, grade, stream, gender, track,
cycle} (`x || ''` is the identity on strings). -/
def rowHasChanges (ex : Student) (d : RawRow) (cycle : String) : Bool :=
  ex.lastName != d.lastName || ex.firstName != d.firstName ||
  ex.grade != d.grade || ex.stream != d.stream ||
  ex.gender != d.gender || ex.track != d.track || ex.cycle != cycle

/-- Classification of one processed reconciliation row. -/
inductive RowOutcome
  | updated
  | skipped
  | created
  | errored (msg : String)
deriving DecidableEq, Repr

/-- server.js lines 854-976 (and 1032-1120): process one row that
passed the empty-row filter — look up an existing student by natural
key, recompute the cycle, then update / skip / create; any raised
error becomes `errored`. -/
def rowStep (ay : Nat) (userId location : String) (db : DB) (d : RawRow) :
    RowOutcome × DB :=
  match StudentModel.searchIdNumber db d.idNumber with
  | (found, db) =>
    match found with
    | existing :: _ =>
      let cycle := updCycle ay d.grade existing.cycle
      if rowHasChanges existing d cycle then
        let updateData : StudentData :=
          { idNumber := d.idNumber, lastName := d.lastName,
            firstName := d.firstName, grade := d.grade,
            stream := d.stream, gender := d.gender, track := d.track,
            status := existing.status,  -- Keep existing status
            cycle := cycle }            -- Always use calculated cycle
        match StudentModel.update db existing.id updateData
            (some userId) (some location) with
        | (Except.error e, db) => (RowOutcome.errored e, db)
        | (Except.ok _, db) => (RowOutcome.updated, db)
      else (RowOutcome.skipped, db)
    | [] =>
      let newData : StudentData :=
        { idNumber := d.idNumber, lastName := d.lastName,
          firstName := d.firstName, grade := d.grade,
          stream := d.stream, gender := d.gender, track := d.track,
          status := "לומד", cycle := createCycle ay d.grade }
      match StudentModel.create db newData (some userId) (some location) with
      | (Except.error e, db) => (RowOutcome.errored e, db)
      | (Except.ok _, db) => (RowOutcome.created, db)

/-- One entry of `results.errors`.  The source pushes strings; the
three push sites have three distinct formats (server.js lines 805, 979,
1123), modelled structurally with `renderErr` giving the pushed text. -/
inductive ErrEntry
  | sheetErr (sheetName : String) (missing : List String)
  | excelRowErr (sheetName : String) (rowNum : Nat) (msg : String)
  | pastedRowErr (idNumber : String) (msg : String)
deriving DecidableEq, Repr

/-- The literal string pushed onto `results.errors`. -/
def renderErr : ErrEntry → String
  | ErrEntry.sheetErr n missing =>
    "Sheet " ++ n ++ ": Missing headers: " ++ String.intercalate ", " missing
  | ErrEntry.excelRowErr n rowNum msg =>
    "Sheet " ++ n ++ ", Row " ++ natToDec rowNum ++ ": " ++ msg
  | ErrEntry.pastedRowErr idNumber msg =>
    "ת.ז " ++ idNumber ++ ": " ++ msg

/-- Is the error entry scoped to a single processed row (as opposed to
a sheet-level missing-headers entry)? -/
def rowScoped : ErrEntry → Bool
  | ErrEntry.sheetErr _ _ => false
  | ErrEntry.excelRowErr _ _ _ => true
  | ErrEntry.pastedRowErr _ _ => true

/-- The `results` accumulator (server.js lines 745-751, 1009-1015). -/
structure RecResults where
  processed : Nat
  updated : Nat
  created : Nat
  skipped : Nat
  errors : List ErrEntry
deriving DecidableEq, Repr

/-- The zero-initialised `results` object. -/
def RecResults.init : RecResults := ⟨0, 0, 0, 0, []⟩

/-- The row loop shared by both endpoints (server.js lines 810-981 and
1023-1125): skip rows failing the falsy filter, count the rest in
`processed`, classify each via `rowStep`, and turn a raised error into
one pushed error entry (built by `mkErr` from the row, its data-array
index, and the message) without stopping the loop. -/
def processRows (ay : Nat) (userId location : String)
    (mkErr : RawRow → Nat → String → ErrEntry) :
    DB → List RawRow → Nat → RecResults → RecResults × DB
  | db, [], _, acc => (acc, db)
  | db, d :: rest, i, acc =>
    if eligible d then
      let acc1 := { acc with processed := acc.processed + 1 }
      match rowStep ay userId location db d with
      | (out, db) =>
        let acc2 :=
          match out with
          | RowOutcome.updated => { acc1 with updated := acc1.updated + 1 }
          | RowOutcome.skipped => { acc1 with skipped := acc1.skipped + 1 }
          | RowOutcome.created => { acc1 with created := acc1.created + 1 }
          | RowOutcome.errored msg =>
            { acc1 with errors := acc1.errors ++ [mkErr d i msg] }
        processRows ay userId location mkErr db rest (i + 1) acc2
    else processRows ay userId location mkErr db rest (i + 1) acc

/-- One worksheet as consumed by the reconciliation core: its name, the
A1 cell, the raw header-row strings (row 3), and the extracted data
rows (row 4 onwards). -/
structure Sheet where
  name : String
  a1 : String
  headers : List String
  rows : List RawRow
deriving Repr

/-- server.js lines 782-799: which required field a raw header string
maps to, if any. -/
def headerField (h : String) : Option String :=
  let hs := trimStr h
  if hs == "ת.ז" || hs == "תז" then some "idNumber"
  else if hs == "שם משפחה" then some "lastName"
  else if hs == "שם פרטי" then some "firstName"
  else if hs == "כיתה" then some "grade"
  else if hs == "מקבילה" then some "stream"
  else if hs == "מין" then some "gender"
  else if hs == "מגמה" then some "track"
  else none

/-- server.js line 802. -/
def requiredHeaders : List String :=
  ["idNumber", "lastName", "firstName", "grade", "stream", "gender", "track"]

/-- server.js line 803: required headers not found in the header row. -/
def missingHeaders (headers : List String) : List String :=
  requiredHeaders.filter
    (fun f => !(headers.any (fun h => headerField h == some f)))

/-- server.js lines 754-981: process one sheet — skip it silently
unless A1 contains the grade-level marker, record one sheet-level error
when required headers are missing, otherwise run the row loop on the
normalised data rows (data indices start at 3, so the reported row
number is index + 1). -/
def processSheet (ay : Nat) (userId : String) (db : DB)
    (acc : RecResults) (sh : Sheet) : RecResults × DB :=
  if !(strContains sh.a1 "שכבה") then (acc, db)
  else if !(missingHeaders sh.headers).isEmpty then
    ({ acc with errors :=
        acc.errors ++ [ErrEntry.sheetErr sh.name (missingHeaders sh.headers)] },
      db)
  else
    processRows ay userId "העלאה ממשו\"ב"
      (fun _ i msg => ErrEntry.excelRowErr sh.name (i + 1) msg)
      db (sh.rows.map normalizeExcelRow) 3 acc

/-- The sheet loop of `/upload-excel`. -/
def excelGo (ay : Nat) (userId : String) :
    DB → RecResults → List Sheet → RecResults × DB
  | db, acc, [] => (acc, db)
  | db, acc, sh :: rest =>
    match processSheet ay userId db acc sh with
    | (acc, db) => excelGo ay userId db acc rest

/-- server.js lines 733-996: the `/upload-excel` reconciliation run over
a workbook, starting from zeroed `results`.  `ay` is the current
academic year (lines 861-864, injected clock). -/
def excelReconcile (ay : Nat) (userId : String) (db : DB)
    (sheets : List Sheet) : RecResults × DB :=
  excelGo ay userId db RecResults.init sheets

/-- server.js lines 999-1139: the `/upload-pasted` reconciliation run
over already-tabular rows (no per-cell normalisation; errors are keyed
by the row's natural key). -/
def pastedReconcile (ay : Nat) (userId : String) (db : DB)
    (rows : List RawRow) : RecResults × DB :=
  processRows ay userId "העלאה ממשו\"ב (הדבקה)"
    (fun d _ msg => ErrEntry.pastedRowErr d.idNumber msg)
    db rows 0 RecResults.init

end Server

/-! ## Characterisation of the single-record mutations -/

/-- The student row inserted by a successful `create`. -/
def newStudent (db : DB) (d : StudentData) : Student :=
  { id := db.nextStudentId, idNumber := d.idNumber, lastName := d.lastName,
    firstName := d.firstName, grade := d.grade, stream := d.stream,
    gender := d.gender, track := d.track, status := d.status,
    cycle := d.cycle, createdAt := db.clock, updatedAt := db.clock }

/-- The `start_studies` event written by a successful `create`
(backdated to the student's `created_at`). -/
def startEvt (db : DB) (d : StudentData) (u l : Option String) : HistoryEvent :=
  { id := db.nextHistoryId, studentId := db.nextStudentId,
    changeType := "start_studies", fieldName := none, oldValue := none,
    newValue := none, location := l, changedBy := u,
    changeDescription := "התחלת לימודים - " ++ d.firstName ++ " " ++
      d.lastName ++ " (ת.ז: " ++ d.idNumber ++ ")",
    createdAt := db.clock }

/-- The `created` event written by a successful `create` (timestamped at
its own insertion, three statements after the row insert). -/
def createdEvt (db : DB) (d : StudentData) (u l : Option String) :
    HistoryEvent :=
  { id := db.nextHistoryId + 1, studentId := db.nextStudentId,
    changeType := "created", fieldName := none, oldValue := none,
    newValue := none, location := l, changedBy := u,
    changeDescription := "נוצר תלמיד חדש: " ++ d.firstName ++ " " ++
      d.lastName ++ " (ת.ז: " ++ d.idNumber ++ ")",
    createdAt := db.clock + 3 }

theorem create_eq (db : DB) (d : StudentData) (u l : Option String)
    (hdup : db.students.any (fun s => s.idNumber == d.idNumber) = false)
    (hfresh : ∀ t ∈ db.students, t.id ≠ db.nextStudentId) :
    StudentModel.create db d u l =
      (Except.ok (newStudent db d),
        { students := db.students ++ [newStudent db d],
          history := db.history ++ [startEvt db d u l, createdEvt db d u l],
          nextStudentId := db.nextStudentId + 1,
          nextHistoryId := db.nextHistoryId + 2,
          clock := db.clock + 4 }) := by
  have h1 : db.students.find? (fun t => t.id == db.nextStudentId) = none :=
    List.find?_eq_none.mpr (fun x hx => by simpa using hfresh x hx)
  have h2 : (db.students ++ [newStudent db d]).find?
      (fun t => t.id == db.nextStudentId) = some (newStudent db d) := by
    rw [List.find?_append, h1]
    simp [newStudent]
  have h3 : (db.students ++ [newStudent db d]).any
      (fun s => s.id == db.nextStudentId) = true := by
    rw [List.any_append]
    simp [newStudent]
  simp only [StudentModel.create, insertStudent, hdup, Bool.false_eq_true,
    if_false, DB.tick]
  simp only [newStudent] at h2 h3
  simp only [h2, h3, insertHistory, if_true, Option.map_some, Option.getD_some]
  simp_arith [newStudent, startEvt, createdEvt]

theorem logFieldChanges_spec (id : Nat) (u l : Option String) :
    ∀ (fs : List StudentModel.FieldTrack) (db : DB),
      db.students.any (fun s => s.id == id) = true →
      ∃ db', StudentModel.logFieldChanges db id fs u l = (Except.ok (), db') ∧
        db'.students = db.students ∧
        db'.nextStudentId = db.nextStudentId ∧
        ∃ evts, db'.history = db.history ++ evts ∧
          evts.map (fun e => (e.changeType, e.fieldName, e.oldValue, e.newValue)) =
            (fs.filter (fun f => f.old != f.new)).map
              (fun f => ("field_update", some f.name, some f.old, some f.new)) := by
  intro fs
  induction fs with
  | nil =>
    intro db hmem
    exact ⟨db, rfl, rfl, rfl, [], by simp, by simp [StudentModel.logFieldChanges]⟩
  | cons f rest ih =>
    intro db hmem
    by_cases hf : (f.old != f.new) = true
    · have hstep :
        StudentModel.logFieldChanges db id (f :: rest) u l =
          StudentModel.logFieldChanges
            { db with
                history := db.history ++
                  [{ id := db.nextHistoryId, studentId := id,
                     changeType := "field_update", fieldName := some f.name,
                     oldValue := some f.old, newValue := some f.new,
                     location := l, changedBy := u,
                     changeDescription := f.name ++ " שונה מ-\"" ++ f.old ++
                       "\" ל-\"" ++ f.new ++ "\"",
                     createdAt := db.clock }],
                nextHistoryId := db.nextHistoryId + 1,
                clock := db.clock + 1 } id rest u l := by
        simp [StudentModel.logFieldChanges, hf, insertHistory, hmem]
      obtain ⟨db', h1, h2, h3, evts, h4, h5⟩ := ih
        { db with
            history := db.history ++
              [{ id := db.nextHistoryId, studentId := id,
                 changeType := "field_update", fieldName := some f.name,
                 oldValue := some f.old, newValue := some f.new,
                 location := l, changedBy := u,
                 changeDescription := f.name ++ " שונה מ-\"" ++ f.old ++
                   "\" ל-\"" ++ f.new ++ "\"",
                 createdAt := db.clock }],
            nextHistoryId := db.nextHistoryId + 1,
            clock := db.clock + 1 } (by simpa using hmem)
      refine ⟨db', by rw [hstep]; exact h1, by simpa using h2, by simpa using h3,
        { id := db.nextHistoryId, studentId := id,
          changeType := "field_update", fieldName := some f.name,
          oldValue := some f.old, newValue := some f.new,
          location := l, changedBy := u,
          changeDescription := f.name ++ " שונה מ-\"" ++ f.old ++
            "\" ל-\"" ++ f.new ++ "\"",
          createdAt := db.clock } :: evts, ?_, ?_⟩
      · simpa using h4
      · simp [List.filter_cons, hf, h5]
    · have hf' : (f.old != f.new) = false := by
        revert hf; cases (f.old != f.new) <;> simp
      have hstep :
          StudentModel.logFieldChanges db id (f :: rest) u l =
            StudentModel.logFieldChanges db id rest u l := by
        simp [StudentModel.logFieldChanges, hf']
      obtain ⟨db', h1, h2, h3, evts, h4, h5⟩ := ih db hmem
      exact ⟨db', by rw [hstep]; exact h1, h2, h3, evts, h4, by
        simp [List.filter_cons, hf', h5]⟩

theorem update_eq (db : DB) (id : Nat) (d : StudentData) (u l : Option String)
    (oldS : Student)
    (hfind : db.students.find? (fun t => t.id == id) = some oldS)
    (hnodup : db.students.any
      (fun t => t.id != id && t.idNumber == d.idNumber) = false) :
    ∃ db', StudentModel.update db id d u l =
        (Except.ok (some (applyData oldS d (db.clock + 1))), db') ∧
      db'.students = db.students.map
        (fun t => if t.id == id then applyData t d (db.clock + 1) else t) ∧
      db'.nextStudentId = db.nextStudentId ∧
      ∃ evts, db'.history = db.history ++ evts ∧
        evts.map (fun e => (e.changeType, e.fieldName, e.oldValue, e.newValue)) =
          ((StudentModel.fieldsToTrack oldS d).filter
            (fun f => f.old != f.new)).map
            (fun f => ("field_update", some f.name, some f.old, some f.new)) := by
  have hmemOld : oldS ∈ db.students := List.mem_of_find?_eq_some hfind
  have hpOld := List.find?_some hfind
  have hmem2 : ((db.students.map
      (fun t => if t.id == id then applyData t d (db.clock + 1) else t)).any
      (fun s => s.id == id)) = true := by
    rw [List.any_eq_true]
    refine ⟨if oldS.id == id then applyData oldS d (db.clock + 1) else oldS,
      List.mem_map_of_mem _ hmemOld, by simp [hpOld, applyData]⟩
  obtain ⟨db', h1, h2, h3, evts, h4, h5⟩ :=
    logFieldChanges_spec id u l (StudentModel.fieldsToTrack oldS d)
      { db with
          students := db.students.map
            (fun t => if t.id == id then applyData t d (db.clock + 1) else t),
          clock := db.clock + 1 + 1 }
      (by simpa using hmem2)
  refine ⟨db', ?_, by simpa using h2, by simpa using h3, evts,
    by simpa using h4, h5⟩
  simp only [StudentModel.update, StudentModel.getById, DB.tick, hfind,
    updateStudentRow, hnodup, Bool.false_eq_true, if_false]
  rw [h1]

/-! ## Reconciliation idempotence machinery -/

namespace Server

/-- The students matched by the natural-key lookup (the rows returned by
`StudentModel.searchIdNumber`, in id order). -/
def matchesOf (st : List Student) (k : String) : List Student :=
  st.filter (fun s => ilike s.idNumber k)

theorem searchIdNumber_eq (db : DB) (q : String) :
    StudentModel.searchIdNumber db q = (matchesOf db.students q, db.tick) := rfl

/-- A row is settled in a store when its lookup returns exactly one
student, keyed exactly by the row's natural key, whose tracked fields
already agree with the row (so the reconciliation skips it). -/
def settled (ay : Nat) (st : List Student) (d : RawRow) : Prop :=
  ∃ s, matchesOf st d.idNumber = [s] ∧ s.idNumber = d.idNumber ∧
    rowHasChanges s d (updCycle ay d.grade s.cycle) = false

/-- Natural-key matching is exact between a store and a row set: any
ILIKE containment hit is an exact key equality. -/
def ExactWrt (st : List Student) (rows : List RawRow) : Prop :=
  ∀ s ∈ st, ∀ r ∈ rows, ilike s.idNumber r.idNumber = true →
    s.idNumber = r.idNumber

/-- No row's natural key ILIKE-matches a different row's natural key
(in either direction).  Since a key always matches itself, this also
forces the keys to be pairwise distinct. -/
def NoCrossMatch (rows : List RawRow) : Prop :=
  rows.Pairwise (fun a b => ilike a.idNumber b.idNumber = false ∧
    ilike b.idNumber a.idNumber = false)

instance (rows : List RawRow) : Decidable (NoCrossMatch rows) :=
  inferInstanceAs (Decidable (rows.Pairwise (fun a b : RawRow =>
    ilike a.idNumber b.idNumber = false ∧
    ilike b.idNumber a.idNumber = false)))

instance (st : List Student) (rows : List RawRow) : Decidable (ExactWrt st rows) :=
  inferInstanceAs (Decidable (∀ s ∈ st, ∀ r ∈ rows,
    ilike s.idNumber r.idNumber = true → s.idNumber = r.idNumber))

/-- The store invariant maintained through a reconciliation run:
well-formed ids, unique natural keys, and exact matching with respect
to the run's rows. -/
def Inv (rows₀ : List RawRow) (db : DB) : Prop :=
  List.Pairwise (fun a b => a.id < b.id) db.students ∧
  (∀ s ∈ db.students, s.id < db.nextStudentId) ∧
  List.Pairwise (fun a b => a.idNumber ≠ b.idNumber) db.students ∧
  ExactWrt db.students rows₀

theorem NoCrossMatch.key_eq {rows : List RawRow} (h : NoCrossMatch rows)
    {a b : RawRow} (ha : a ∈ rows) (hb : b ∈ rows)
    (hm : ilike a.idNumber b.idNumber = true) : a = b := by
  by_contra hne
  have hsymm : Symmetric (fun a b : RawRow =>
      ilike a.idNumber b.idNumber = false ∧
      ilike b.idNumber a.idNumber = false) :=
    fun x y hxy => ⟨hxy.2, hxy.1⟩
  have := (List.Pairwise.forall hsymm h) ha hb hne
  rw [this.1] at hm
  exact Bool.false_ne_true hm

theorem pairwise_id_ne {st : List Student}
    (hch : List.Pairwise (fun a b => a.id < b.id) st) :
    List.Pairwise (fun a b : Student => a.id ≠ b.id) st :=
  hch.imp (fun h => Nat.ne_of_lt h)

theorem find?_id_of_mem {st : List Student} {s : Student}
    (hne : List.Pairwise (fun a b : Student => a.id ≠ b.id) st)
    (hmem : s ∈ st) : st.find? (fun t => t.id == s.id) = some s := by
  induction st with
  | nil => cases hmem
  | cons t rest ih =>
    rcases List.mem_cons.mp hmem with h | h
    · subst h
      simp [List.find?_cons]
    · have hts : t.id ≠ s.id := (List.pairwise_cons.mp hne).1 s h
      rw [List.find?_cons]
      have : (t.id == s.id) = false := by simpa using hts
      rw [this]
      exact ih (List.pairwise_cons.mp hne).2 h

theorem eq_of_mem_same_id {st : List Student} {s t : Student}
    (hne : List.Pairwise (fun a b : Student => a.id ≠ b.id) st)
    (hs : s ∈ st) (ht : t ∈ st) (h : s.id = t.id) : s = t := by
  by_contra hst
  have hsymm : Symmetric (fun a b : Student => a.id ≠ b.id) :=
    fun x y hxy => fun e => hxy e.symm
  exact (List.Pairwise.forall hsymm hne) hs ht hst h

theorem matches_exact {st : List Student} {rows : List RawRow} {r : RawRow}
    (hEx : ExactWrt st rows) (hr : r ∈ rows) :
    ∀ s ∈ matchesOf st r.idNumber, s.idNumber = r.idNumber := by
  intro s hs
  have hs' : s ∈ st.filter (fun s => ilike s.idNumber r.idNumber) := hs
  have h2 := List.mem_filter.mp hs'
  exact hEx s h2.1 r hr h2.2

theorem matches_singleton {st : List Student} {k : String}
    (hpw : List.Pairwise (fun a b : Student => a.idNumber ≠ b.idNumber) st)
    (hex : ∀ s ∈ matchesOf st k, s.idNumber = k) :
    matchesOf st k = [] ∨ ∃ s, matchesOf st k = [s] ∧ s.idNumber = k := by
  have hsub : List.Pairwise (fun a b : Student => a.idNumber ≠ b.idNumber)
      (matchesOf st k) := hpw.sublist (List.filter_sublist _)
  cases hM : matchesOf st k with
  | nil => exact Or.inl rfl
  | cons s rest =>
    cases hR : rest with
    | nil =>
      refine Or.inr ⟨s, rfl, hex s ?_⟩
      rw [hM]; exact List.mem_cons_self _ _
    | cons t rest2 =>
      exfalso
      rw [hM, hR] at hsub
      have h1 : s.idNumber ≠ t.idNumber :=
        (List.pairwise_cons.mp hsub).1 t (List.mem_cons_self _ _)
      have hsk : s.idNumber = k := by
        apply hex; rw [hM]; exact List.mem_cons_self _ _
      have htk : t.idNumber = k := by
        apply hex; rw [hM, hR]
        exact List.mem_cons_of_mem _ (List.mem_cons_self _ _)
      exact h1 (hsk.trans htk.symm)

theorem mem_of_matches {st : List Student} {k : String} {s : Student}
    (h : s ∈ matchesOf st k) : s ∈ st := by
  have h' : s ∈ st.filter (fun s => ilike s.idNumber k) := h
  exact (List.mem_filter.mp h').1

theorem updCycle_createCycle (ay : Nat) (g : String) :
    updCycle ay g (createCycle ay g) = createCycle ay g := by
  cases h : calcCycleOpt ay g <;> simp [updCycle, createCycle, h]

theorem updCycle_idem (ay : Nat) (g c : String) :
    updCycle ay g (updCycle ay g c) = updCycle ay g c := by
  cases h : calcCycleOpt ay g <;> simp [updCycle, h]

end Server

namespace Server

theorem chain_append_one {st : List Student} {n : Student}
    (hch : List.Pairwise (fun a b : Student => a.id < b.id) st)
    (hall : ∀ s ∈ st, s.id < n.id) :
    List.Pairwise (fun a b : Student => a.id < b.id) (st ++ [n]) := by
  rw [List.pairwise_append]
  exact ⟨hch, List.pairwise_singleton _ _, fun a ha b hb => by
    rw [List.mem_singleton] at hb; subst hb; exact hall a ha⟩

/-- Case analysis of one reconciliation row step under the invariant:
the step preserves the invariant, leaves the row settled, and preserves
the settledness of every other row of the run. -/
theorem rowStep_char (ay : Nat) (u l : String) (rows₀ : List RawRow)
    (db : DB) (r : RawRow)
    (hInv : Inv rows₀ db) (hHA : NoCrossMatch rows₀) (hr : r ∈ rows₀) :
    Inv rows₀ (rowStep ay u l db r).2 ∧
    settled ay (rowStep ay u l db r).2.students r ∧
    (∀ r₀ ∈ rows₀, settled ay db.students r₀ →
      settled ay (rowStep ay u l db r).2.students r₀) := by
  obtain ⟨hch, hlt, hpw, hEx⟩ := hInv
  have hidne := pairwise_id_ne hch
  have hexact := matches_exact hEx hr
  rcases matches_singleton hpw hexact with hM | ⟨s, hM, hsk⟩
  · -- no match: the create branch
    have hnotin : ∀ a ∈ db.students, a.idNumber ≠ r.idNumber := by
      intro a ha heq
      have : a ∈ matchesOf db.students r.idNumber :=
        List.mem_filter.mpr ⟨ha, by rw [heq]; exact ilike_refl _⟩
      rw [hM] at this
      cases this
    have hdup : (DB.tick db).students.any
        (fun t => t.idNumber ==
          (⟨r.idNumber, r.lastName, r.firstName, r.grade, r.stream,
            r.gender, r.track, "לומד", createCycle ay r.grade⟩ :
            StudentData).idNumber) = false := by
      rw [List.any_eq_false]
      intro t ht
      simpa using hnotin t ht
    have hfresh : ∀ t ∈ (DB.tick db).students,
        t.id ≠ (DB.tick db).nextStudentId := by
      intro t ht
      exact Nat.ne_of_lt (hlt t ht)
    have hcre := create_eq (DB.tick db)
      ⟨r.idNumber, r.lastName, r.firstName, r.grade, r.stream,
        r.gender, r.track, "לומד", createCycle ay r.grade⟩
      (some u) (some l) hdup hfresh
    have hrw : rowStep ay u l db r =
        (RowOutcome.created,
          { students := db.students ++
              [newStudent (DB.tick db)
                ⟨r.idNumber, r.lastName, r.firstName, r.grade, r.stream,
                  r.gender, r.track, "לומד", createCycle ay r.grade⟩],
            history := (DB.tick db).history ++
              [startEvt (DB.tick db)
                  ⟨r.idNumber, r.lastName, r.firstName, r.grade, r.stream,
                    r.gender, r.track, "לומד", createCycle ay r.grade⟩
                  (some u) (some l),
               createdEvt (DB.tick db)
                  ⟨r.idNumber, r.lastName, r.firstName, r.grade, r.stream,
                    r.gender, r.track, "לומד", createCycle ay r.grade⟩
                  (some u) (some l)],
            nextStudentId := db.nextStudentId + 1,
            nextHistoryId := db.nextHistoryId + 2,
            clock := db.clock + 1 + 4 }) := by
      simp only [rowStep, searchIdNumber_eq, hM]
      rw [hcre]
      rfl
    rw [hrw]
    set n : Student := newStudent (DB.tick db)
      ⟨r.idNumber, r.lastName, r.firstName, r.grade, r.stream,
        r.gender, r.track, "לומד", createCycle ay r.grade⟩ with hn
    have hnid : n.id = db.nextStudentId := rfl
    have hnidn : n.idNumber = r.idNumber := rfl
    refine ⟨⟨?_, ?_, ?_, ?_⟩, ?_, ?_⟩
    · exact chain_append_one hch (fun t ht => by rw [hnid]; exact hlt t ht)
    · intro t ht
      rcases List.mem_append.mp ht with h | h
      · exact Nat.lt_succ_of_lt (hlt t h)
      · rw [List.mem_singleton] at h
        subst h
        rw [hnid]
        exact Nat.lt_succ_self _
    · rw [List.pairwise_append]
      refine ⟨hpw, List.pairwise_singleton _ _, fun a ha b hb => ?_⟩
      rw [List.mem_singleton] at hb
      subst hb
      rw [hnidn]
      exact hnotin a ha
    · intro t ht r' hr' hil
      rcases List.mem_append.mp ht with h | h
      · exact hEx t h r' hr' hil
      · rw [List.mem_singleton] at h
        subst h
        rw [hnidn] at hil ⊢
        have := hHA.key_eq hr hr' hil
        rw [this]
    · refine ⟨n, ?_, hnidn, ?_⟩
      · show (db.students ++ [n]).filter
          (fun s => ilike s.idNumber r.idNumber) = [n]
        rw [List.filter_append]
        have h1 : db.students.filter
            (fun s => ilike s.idNumber r.idNumber) = [] := hM
        rw [h1]
        have h2 : ilike n.idNumber r.idNumber = true := by
          rw [hnidn]; exact ilike_refl _
        simp [h2]
      · simp [rowHasChanges, hn, newStudent, updCycle_createCycle]
    · intro r₀ hr₀ ⟨t, hT, hTk, hTch⟩
      have hnomatch : ilike n.idNumber r₀.idNumber = false := by
        by_contra hcon
        have htrue : ilike n.idNumber r₀.idNumber = true := by
          revert hcon; cases ilike n.idNumber r₀.idNumber <;> simp
        rw [hnidn] at htrue
        have := hHA.key_eq hr hr₀ htrue
        subst this
        rw [hM] at hT
        cases hT
      refine ⟨t, ?_, hTk, hTch⟩
      show (db.students ++ [n]).filter
        (fun s => ilike s.idNumber r₀.idNumber) = [t]
      rw [List.filter_append]
      have h1 : db.students.filter
          (fun s => ilike s.idNumber r₀.idNumber) = [t] := hT
      rw [h1]
      simp [hnomatch]
  · -- a unique exact match s
    have hsmem : s ∈ db.students := by
      have hsm : s ∈ matchesOf db.students r.idNumber := by
        rw [hM]
        exact List.mem_cons_self _ _
      exact mem_of_matches hsm
    by_cases hchg : rowHasChanges s r (updCycle ay r.grade s.cycle) = true
    · -- the update branch
      have hfind : (DB.tick db).students.find? (fun t => t.id == s.id) =
          some s := find?_id_of_mem hidne hsmem
      have hnodup : (DB.tick db).students.any
          (fun t => t.id != s.id && t.idNumber ==
            (⟨r.idNumber, r.lastName, r.firstName, r.grade, r.stream,
              r.gender, r.track, s.status,
              updCycle ay r.grade s.cycle⟩ : StudentData).idNumber) =
          false := by
        rw [List.any_eq_false]
        intro t ht
        by_cases hts : t = s
        · subst hts
          simp
        · have h1 : t.idNumber ≠ s.idNumber := by
            have hsymm : Symmetric
                (fun a b : Student => a.idNumber ≠ b.idNumber) :=
              fun x y hxy => fun e => hxy e.symm
            exact (List.Pairwise.forall hsymm hpw) ht hsmem hts
          have h2 : (t.idNumber == r.idNumber) = false := by
            rw [← hsk]
            simpa using h1
          simp [h2]
      obtain ⟨db', h1, h2, h3, evts, h4, h5⟩ := update_eq (DB.tick db) s.id
        ⟨r.idNumber, r.lastName, r.firstName, r.grade, r.stream,
          r.gender, r.track, s.status, updCycle ay r.grade s.cycle⟩
        (some u) (some l) s hfind hnodup
      have hrw : rowStep ay u l db r = (RowOutcome.updated, db') := by
        simp only [rowStep, searchIdNumber_eq, hM, hchg, if_true]
        rw [h1]
      rw [hrw]
      set ud : StudentData :=
        ⟨r.idNumber, r.lastName, r.firstName, r.grade, r.stream,
          r.gender, r.track, s.status, updCycle ay r.grade s.cycle⟩ with hud
      set f : Student → Student :=
        fun t => if t.id == s.id then applyData t ud ((DB.tick db).clock + 1)
          else t with hf
      have hstu : db'.students = db.students.map f := h2
      have hfid : ∀ t : Student, (f t).id = t.id := by
        intro t
        rw [hf]
        dsimp only
        split <;> simp [applyData]
      have hfidn : ∀ t ∈ db.students, (f t).idNumber = t.idNumber := by
        intro t ht
        by_cases h : (t.id == s.id) = true
        · have : t = s := eq_of_mem_same_id hidne ht hsmem (by simpa using h)
          subst this
          simp [hf, h, applyData, hud, hsk]
        · have h' : t.id ≠ s.id := by simpa using h
          simp [hf, h, h']
      have hmatches : ∀ k, matchesOf (db.students.map f) k =
          (matchesOf db.students k).map f := by
        intro k
        show (db.students.map f).filter (fun t => ilike t.idNumber k) =
          ((db.students.filter (fun t => ilike t.idNumber k)).map f)
        rw [List.filter_map]
        congr 1
        apply List.filter_congr
        intro t ht
        simp [Function.comp, hfidn t ht]
      refine ⟨⟨?_, ?_, ?_, ?_⟩, ?_, ?_⟩
      · rw [hstu]
        rw [List.pairwise_map]
        apply List.Pairwise.imp _ hch
        intro a b hab
        rw [hfid a, hfid b]
        exact hab
      · intro t ht
        rw [hstu] at ht
        obtain ⟨t0, ht0, rfl⟩ := List.mem_map.mp ht
        rw [h3, hfid t0]
        exact hlt t0 ht0
      · rw [hstu]
        rw [List.pairwise_map]
        apply List.Pairwise.imp_of_mem _ hpw
        intro a b ha hb hab
        rw [hfidn a ha, hfidn b hb]
        exact hab
      · intro t ht r' hr' hil
        rw [hstu] at ht
        obtain ⟨t0, ht0, rfl⟩ := List.mem_map.mp ht
        rw [hfidn t0 ht0] at hil ⊢
        exact hEx t0 ht0 r' hr' hil
      · refine ⟨f s, ?_, ?_, ?_⟩
        · rw [hstu, hmatches, hM]
          rfl
        · have : (s.id == s.id) = true := by simp
          simp [hf, this, applyData, hud]
        · have hfs : f s = applyData s ud ((DB.tick db).clock + 1) := by
            simp [hf]
          rw [hfs]
          simp [rowHasChanges, applyData, hud, updCycle_idem]
      · intro r₀ hr₀ ⟨t, hT, hTk, hTch⟩
        have htmem : t ∈ db.students := by
          have htm : t ∈ matchesOf db.students r₀.idNumber := by
            rw [hT]
            exact List.mem_cons_self _ _
          exact mem_of_matches htm
        by_cases hts : t = s
        · exfalso
          subst hts
          have hkeys : r₀.idNumber = r.idNumber := by
            rw [← hTk, hsk]
          have hilik : ilike r₀.idNumber r.idNumber = true := by
            rw [hkeys]; exact ilike_refl _
          have := hHA.key_eq hr₀ hr hilik
          subst this
          rw [hTch] at hchg
          cases hchg
        · have hft : f t = t := by
            have h1 : t.id ≠ s.id := fun e =>
              hts (eq_of_mem_same_id hidne htmem hsmem e)
            have h2 : (t.id == s.id) = false := by simpa using h1
            simp [hf, h2, h1]
          refine ⟨t, ?_, hTk, hTch⟩
          rw [hstu, hmatches, hT]
          simp [hft]
    · -- the skip branch
      have hchg' : rowHasChanges s r (updCycle ay r.grade s.cycle) = false := by
        revert hchg; cases rowHasChanges s r (updCycle ay r.grade s.cycle) <;> simp
      have hrw : rowStep ay u l db r = (RowOutcome.skipped, DB.tick db) := by
        simp only [rowStep, searchIdNumber_eq, hM, hchg', Bool.false_eq_true,
          if_false]
      rw [hrw]
      refine ⟨⟨hch, hlt, hpw, hEx⟩, ⟨s, hM, hsk, hchg'⟩, ?_⟩
      intro r₀ hr₀ hs₀
      exact hs₀

end Server

namespace Server

theorem rowStep_skip (ay : Nat) (u l : String) (db : DB) (r : RawRow)
    (h : settled ay db.students r) :
    rowStep ay u l db r = (RowOutcome.skipped, DB.tick db) := by
  obtain ⟨s, hM, hsk, hch⟩ := h
  simp only [rowStep, searchIdNumber_eq, hM, hch, Bool.false_eq_true, if_false]

/-- Run 1: starting from any invariant store, processing a sublist of
the run's rows preserves the invariant, settles each eligible processed
row, and preserves settledness of every row of the run. -/
theorem processRows_settles (ay : Nat) (u l : String)
    (mkErr : RawRow → Nat → String → ErrEntry) (rows₀ : List RawRow)
    (hHA : NoCrossMatch rows₀) :
    ∀ (rows : List RawRow) (db : DB) (i : Nat) (acc : RecResults),
      rows.Sublist rows₀ → Inv rows₀ db →
      Inv rows₀ (processRows ay u l mkErr db rows i acc).2 ∧
      (∀ r₀ ∈ rows₀, settled ay db.students r₀ →
        settled ay (processRows ay u l mkErr db rows i acc).2.students r₀) ∧
      (∀ r ∈ rows, eligible r = true →
        settled ay (processRows ay u l mkErr db rows i acc).2.students r) := by
  intro rows
  induction rows with
  | nil =>
    intro db i acc hsub hInv
    refine ⟨hInv, fun r₀ _ h => h, fun r h => absurd h (List.not_mem_nil r)⟩
  | cons d rest ih =>
    intro db i acc hsub hInv
    have hd : d ∈ rows₀ := hsub.subset (List.mem_cons_self _ _)
    have hrest : rest.Sublist rows₀ := List.sublist_of_cons_sublist hsub
    by_cases hel : eligible d = true
    · obtain ⟨hInv₁, hset_d, hpers⟩ := rowStep_char ay u l rows₀ db d hInv hHA hd
      obtain ⟨acc₂, hacc⟩ : ∃ acc₂,
          processRows ay u l mkErr db (d :: rest) i acc =
            processRows ay u l mkErr (rowStep ay u l db d).2 rest (i + 1) acc₂ := by
        simp only [processRows, hel, if_true]
        cases h : rowStep ay u l db d with
        | mk out db₁ => cases out <;> exact ⟨_, rfl⟩
      rw [hacc]
      obtain ⟨hInv₂, hpers₂, hrest₂⟩ :=
        ih (rowStep ay u l db d).2 (i + 1) acc₂ hrest hInv₁
      refine ⟨hInv₂, ?_, ?_⟩
      · intro r₀ hr₀ hset
        exact hpers₂ r₀ hr₀ (hpers r₀ hr₀ hset)
      · intro r hrmem hrel
        rcases List.mem_cons.mp hrmem with h | h
        · subst h
          exact hpers₂ r hd hset_d
        · exact hrest₂ r h hrel
    · have hel' : eligible d = false := by
        revert hel; cases eligible d <;> simp
      have hacc : processRows ay u l mkErr db (d :: rest) i acc =
          processRows ay u l mkErr db rest (i + 1) acc := by
        simp only [processRows, hel', Bool.false_eq_true, if_false]
      rw [hacc]
      obtain ⟨hInv₂, hpers₂, hrest₂⟩ := ih db (i + 1) acc hrest hInv
      refine ⟨hInv₂, hpers₂, ?_⟩
      intro r hrmem hrel
      rcases List.mem_cons.mp hrmem with h | h
      · subst h
        rw [hel'] at hrel
        cases hrel
      · exact hrest₂ r h hrel

/-- Run 2: when every eligible row is already settled, the loop only
skips — no creates, no updates, no errors, `skipped` and `processed`
advance in lockstep, and the store's rows are untouched. -/
theorem processRows_all_settled (ay : Nat) (u l : String)
    (mkErr : RawRow → Nat → String → ErrEntry) :
    ∀ (rows : List RawRow) (db : DB) (i : Nat) (acc : RecResults),
      (∀ r ∈ rows, eligible r = true → settled ay db.students r) →
      (processRows ay u l mkErr db rows i acc).1.created = acc.created ∧
      (processRows ay u l mkErr db rows i acc).1.updated = acc.updated ∧
      (processRows ay u l mkErr db rows i acc).1.errors = acc.errors ∧
      (processRows ay u l mkErr db rows i acc).1.processed =
        acc.processed + rows.countP eligible ∧
      (processRows ay u l mkErr db rows i acc).1.skipped =
        acc.skipped + rows.countP eligible ∧
      (processRows ay u l mkErr db rows i acc).2.students = db.students := by
  intro rows
  induction rows with
  | nil =>
    intro db i acc hset
    simp [processRows]
  | cons d rest ih =>
    intro db i acc hset
    by_cases hel : eligible d = true
    · have hsetd := hset d (List.mem_cons_self _ _) hel
      have hstep := rowStep_skip ay u l db d hsetd
      have hacc : processRows ay u l mkErr db (d :: rest) i acc =
          processRows ay u l mkErr (DB.tick db) rest (i + 1)
            { acc with processed := acc.processed + 1,
                       skipped := acc.skipped + 1 } := by
        simp only [processRows, hel, if_true, hstep]
      rw [hacc]
      have hsetrest : ∀ r ∈ rest, eligible r = true →
          settled ay (DB.tick db).students r := by
        intro r hrmem hrel
        exact hset r (List.mem_cons_of_mem _ hrmem) hrel
      obtain ⟨h1, h2, h3, h4, h5, h6⟩ := ih (DB.tick db) (i + 1)
        { acc with processed := acc.processed + 1,
                   skipped := acc.skipped + 1 } hsetrest
      refine ⟨h1, h2, h3, ?_, ?_, h6⟩
      · rw [h4, List.countP_cons, hel]
        simp
        omega
      · rw [h5, List.countP_cons, hel]
        simp
        omega
    · have hel' : eligible d = false := by
        revert hel; cases eligible d <;> simp
      have hacc : processRows ay u l mkErr db (d :: rest) i acc =
          processRows ay u l mkErr db rest (i + 1) acc := by
        simp only [processRows, hel', Bool.false_eq_true, if_false]
      rw [hacc]
      have hsetrest : ∀ r ∈ rest, eligible r = true →
          settled ay db.students r := by
        intro r hrmem hrel
        exact hset r (List.mem_cons_of_mem _ hrmem) hrel
      obtain ⟨h1, h2, h3, h4, h5, h6⟩ := ih db (i + 1) acc hsetrest
      refine ⟨h1, h2, h3, ?_, ?_, h6⟩
      · rw [h4, List.countP_cons, hel']
        simp
      · rw [h5, List.countP_cons, hel']
        simp

/-- Every row past the falsy filter is counted in `processed`, whatever
its outcome — an erroring row never stops the loop. -/
theorem processRows_processed (ay : Nat) (u l : String)
    (mkErr : RawRow → Nat → String → ErrEntry) :
    ∀ (rows : List RawRow) (db : DB) (i : Nat) (acc : RecResults),
      (processRows ay u l mkErr db rows i acc).1.processed =
        acc.processed + rows.countP eligible := by
  intro rows
  induction rows with
  | nil => intro db i acc; simp [processRows]
  | cons d rest ih =>
    intro db i acc
    by_cases hel : eligible d = true
    · rw [List.countP_cons, hel]
      simp only [processRows, hel, if_true]
      cases h : rowStep ay u l db d with
      | mk out db₁ =>
        cases out <;> simp [ih] <;> omega
    · have hel' : eligible d = false := by
        revert hel; cases eligible d <;> simp
      rw [List.countP_cons, hel']
      simp only [processRows, hel', Bool.false_eq_true, if_false]
      simp [ih]

/-- The running count consistency: each processed row lands in exactly
one of created / updated / skipped / one row-scoped error entry. -/
theorem processRows_counts (ay : Nat) (u l : String)
    (mkErr : RawRow → Nat → String → ErrEntry)
    (hmk : ∀ d i m, rowScoped (mkErr d i m) = true) :
    ∀ (rows : List RawRow) (db : DB) (i : Nat) (acc : RecResults),
      acc.created + acc.updated + acc.skipped +
        acc.errors.countP rowScoped = acc.processed →
      (processRows ay u l mkErr db rows i acc).1.created +
        (processRows ay u l mkErr db rows i acc).1.updated +
        (processRows ay u l mkErr db rows i acc).1.skipped +
        (processRows ay u l mkErr db rows i acc).1.errors.countP rowScoped =
        (processRows ay u l mkErr db rows i acc).1.processed := by
  intro rows
  induction rows with
  | nil => intro db i acc hP; simpa [processRows] using hP
  | cons d rest ih =>
    intro db i acc hP
    by_cases hel : eligible d = true
    · simp only [processRows, hel, if_true]
      cases h : rowStep ay u l db d with
      | mk out db₁ =>
        cases out with
        | updated => exact ih db₁ (i + 1) _ (by simp; omega)
        | skipped => exact ih db₁ (i + 1) _ (by simp; omega)
        | created => exact ih db₁ (i + 1) _ (by simp; omega)
        | errored msg =>
          refine ih db₁ (i + 1) _ ?_
          simp only [List.countP_append, List.countP_cons, List.countP_nil,
            hmk d i msg, if_true]
          simp only [Nat.zero_add]
          omega
    · have hel' : eligible d = false := by
        revert hel; cases eligible d <;> simp
      simp only [processRows, hel', Bool.false_eq_true, if_false]
      exact ih db (i + 1) acc hP

/-- Errors collected by the row loop stay row-scoped. -/
theorem processRows_errors_scoped (ay : Nat) (u l : String)
    (mkErr : RawRow → Nat → String → ErrEntry)
    (hmk : ∀ d i m, rowScoped (mkErr d i m) = true) :
    ∀ (rows : List RawRow) (db : DB) (i : Nat) (acc : RecResults),
      acc.errors.all rowScoped = true →
      (processRows ay u l mkErr db rows i acc).1.errors.all rowScoped = true := by
  intro rows
  induction rows with
  | nil => intro db i acc hP; simpa [processRows] using hP
  | cons d rest ih =>
    intro db i acc hP
    by_cases hel : eligible d = true
    · simp only [processRows, hel, if_true]
      cases h : rowStep ay u l db d with
      | mk out db₁ =>
        cases out with
        | updated => exact ih db₁ (i + 1) _ (by simpa using hP)
        | skipped => exact ih db₁ (i + 1) _ (by simpa using hP)
        | created => exact ih db₁ (i + 1) _ (by simpa using hP)
        | errored msg =>
          refine ih db₁ (i + 1) _ ?_
          simp only [List.all_append]
          simp [hP, hmk d i msg]
    · have hel' : eligible d = false := by
        revert hel; cases eligible d <;> simp
      simp only [processRows, hel', Bool.false_eq_true, if_false]
      exact ih db (i + 1) acc hP

end Server

namespace Server

/-- Does the sheet pass both the A1 marker check and the header check
(the two ways a sheet can be skipped / rejected)? -/
def validSheet (sh : Sheet) : Bool :=
  strContains sh.a1 "שכבה" && (missingHeaders sh.headers).isEmpty

/-- The normalised data rows the engine will actually process for a
sheet (none when the sheet is skipped or rejected). -/
def sheetRows (sh : Sheet) : List RawRow :=
  if validSheet sh then sh.rows.map normalizeExcelRow else []

/-- All rows processed by a workbook run, in processing order. -/
def allRows (sheets : List Sheet) : List RawRow :=
  (sheets.map sheetRows).flatten

theorem processSheet_valid (ay : Nat) (u : String) (db : DB)
    (acc : RecResults) (sh : Sheet) (h : validSheet sh = true) :
    processSheet ay u db acc sh =
      processRows ay u "העלאה ממשו\"ב"
        (fun _ i msg => ErrEntry.excelRowErr sh.name (i + 1) msg)
        db (sheetRows sh) 3 acc := by
  have h1 : strContains sh.a1 "שכבה" = true := by
    simp [validSheet] at h
    exact h.1
  have h2 : (missingHeaders sh.headers).isEmpty = true := by
    simp [validSheet] at h
    simpa using h.2
  simp [processSheet, h1, h2, sheetRows, h]

theorem processSheet_invalid (ay : Nat) (u : String) (db : DB)
    (acc : RecResults) (sh : Sheet) (h : validSheet sh = false) :
    (processSheet ay u db acc sh).2 = db ∧
    sheetRows sh = [] ∧
    (processSheet ay u db acc sh).1.created = acc.created ∧
    (processSheet ay u db acc sh).1.updated = acc.updated ∧
    (processSheet ay u db acc sh).1.skipped = acc.skipped ∧
    (processSheet ay u db acc sh).1.processed = acc.processed ∧
    (processSheet ay u db acc sh).1.errors.countP rowScoped =
      acc.errors.countP rowScoped := by
  by_cases h1 : strContains sh.a1 "שכבה" = true
  · have h2 : (missingHeaders sh.headers).isEmpty = false := by
      simp [validSheet, h1] at h
      simpa using h
    refine ⟨?_, ?_, ?_, ?_, ?_, ?_, ?_⟩ <;>
      simp [processSheet, sheetRows, validSheet, h1, h2,
        List.countP_append, List.countP_cons, rowScoped]
  · have h1' : strContains sh.a1 "שכבה" = false := by
      revert h1; cases strContains sh.a1 "שכבה" <;> simp
    refine ⟨?_, ?_, ?_, ?_, ?_, ?_, ?_⟩ <;>
      simp [processSheet, sheetRows, validSheet, h1']

theorem excelGo_cons (ay : Nat) (u : String) (db : DB) (acc : RecResults)
    (sh : Sheet) (rest : List Sheet) :
    excelGo ay u db acc (sh :: rest) =
      excelGo ay u (processSheet ay u db acc sh).2
        (processSheet ay u db acc sh).1 rest := by
  simp only [excelGo]

/-- Run 1 at workbook level. -/
theorem excelGo_settles (ay : Nat) (u : String) (rows₀ : List RawRow)
    (hHA : NoCrossMatch rows₀) :
    ∀ (sheets : List Sheet) (db : DB) (acc : RecResults),
      (∀ sh ∈ sheets, (sheetRows sh).Sublist rows₀) → Inv rows₀ db →
      Inv rows₀ (excelGo ay u db acc sheets).2 ∧
      (∀ r₀ ∈ rows₀, settled ay db.students r₀ →
        settled ay (excelGo ay u db acc sheets).2.students r₀) ∧
      (∀ sh ∈ sheets, ∀ r ∈ sheetRows sh, eligible r = true →
        settled ay (excelGo ay u db acc sheets).2.students r) := by
  intro sheets
  induction sheets with
  | nil =>
    intro db acc hsub hInv
    exact ⟨hInv, fun r₀ _ h => h, fun sh h => absurd h (List.not_mem_nil sh)⟩
  | cons sh rest ih =>
    intro db acc hsub hInv
    rw [excelGo_cons]
    by_cases hv : validSheet sh = true
    · rw [processSheet_valid ay u db acc sh hv]
      obtain ⟨hInv₁, hpers₁, hsheet₁⟩ :=
        processRows_settles ay u "העלאה ממשו\"ב"
          (fun _ i msg => ErrEntry.excelRowErr sh.name (i + 1) msg) rows₀ hHA
          (sheetRows sh) db 3 acc (hsub sh (List.mem_cons_self _ _)) hInv
      obtain ⟨hInv₂, hpers₂, hsheet₂⟩ := ih _ _
        (fun s hs => hsub s (List.mem_cons_of_mem _ hs)) hInv₁
      refine ⟨hInv₂, ?_, ?_⟩
      · intro r₀ hr₀ hset
        exact hpers₂ r₀ hr₀ (hpers₁ r₀ hr₀ hset)
      · intro s hs r hrmem hrel
        rcases List.mem_cons.mp hs with h | h
        · subst h
          exact hpers₂ r
            ((hsub s (List.mem_cons_self _ _)).subset hrmem)
            (hsheet₁ r hrmem hrel)
        · exact hsheet₂ s h r hrmem hrel
    · have hv' : validSheet sh = false := by
        revert hv; cases validSheet sh <;> simp
      obtain ⟨hdb, hrows, _⟩ := processSheet_invalid ay u db acc sh hv'
      rw [hdb]
      obtain ⟨hInv₂, hpers₂, hsheet₂⟩ := ih db (processSheet ay u db acc sh).1
        (fun s hs => hsub s (List.mem_cons_of_mem _ hs)) hInv
      refine ⟨hInv₂, hpers₂, ?_⟩
      intro s hs r hrmem hrel
      rcases List.mem_cons.mp hs with h | h
      · subst h
        rw [hrows] at hrmem
        cases hrmem
      · exact hsheet₂ s h r hrmem hrel

/-- Run 2 at workbook level: with every sheet row settled, the run only
skips and re-reports sheet-level header errors. -/
theorem excelGo_all_settled (ay : Nat) (u : String) :
    ∀ (sheets : List Sheet) (db : DB) (acc : RecResults),
      (∀ sh ∈ sheets, ∀ r ∈ sheetRows sh, eligible r = true →
        settled ay db.students r) →
      ∃ n, (excelGo ay u db acc sheets).1.created = acc.created ∧
        (excelGo ay u db acc sheets).1.updated = acc.updated ∧
        (excelGo ay u db acc sheets).1.processed = acc.processed + n ∧
        (excelGo ay u db acc sheets).1.skipped = acc.skipped + n ∧
        (excelGo ay u db acc sheets).2.students = db.students := by
  intro sheets
  induction sheets with
  | nil =>
    intro db acc hset
    exact ⟨0, rfl, rfl, rfl, rfl, rfl⟩
  | cons sh rest ih =>
    intro db acc hset
    rw [excelGo_cons]
    by_cases hv : validSheet sh = true
    · rw [processSheet_valid ay u db acc sh hv]
      obtain ⟨h1, h2, h3, h4, h5, h6⟩ :=
        processRows_all_settled ay u "העלאה ממשו\"ב"
          (fun _ i msg => ErrEntry.excelRowErr sh.name (i + 1) msg)
          (sheetRows sh) db 3 acc
          (fun r hr hrel => hset sh (List.mem_cons_self _ _) r hr hrel)
      obtain ⟨n, g1, g2, g3, g4, g5⟩ := ih _ _
        (fun s hs r hr hrel => by
          rw [h6]
          exact hset s (List.mem_cons_of_mem _ hs) r hr hrel)
      refine ⟨(sheetRows sh).countP eligible + n, ?_, ?_, ?_, ?_, ?_⟩
      · rw [g1, h1]
      · rw [g2, h2]
      · rw [g3, h4]; omega
      · rw [g4, h5]; omega
      · rw [g5, h6]
    · have hv' : validSheet sh = false := by
        revert hv; cases validSheet sh <;> simp
      obtain ⟨hdb, hrows, hc, hu2, hs2, hp2, _⟩ :=
        processSheet_invalid ay u db acc sh hv'
      rw [hdb]
      obtain ⟨n, g1, g2, g3, g4, g5⟩ := ih db (processSheet ay u db acc sh).1
        (fun s hs r hr hrel => hset s (List.mem_cons_of_mem _ hs) r hr hrel)
      exact ⟨n, by rw [g1, hc], by rw [g2, hu2], by rw [g3, hp2],
        by rw [g4, hs2], g5⟩

/-- Count consistency at workbook level. -/
theorem excelGo_counts (ay : Nat) (u : String) :
    ∀ (sheets : List Sheet) (db : DB) (acc : RecResults),
      acc.created + acc.updated + acc.skipped +
        acc.errors.countP rowScoped = acc.processed →
      (excelGo ay u db acc sheets).1.created +
        (excelGo ay u db acc sheets).1.updated +
        (excelGo ay u db acc sheets).1.skipped +
        (excelGo ay u db acc sheets).1.errors.countP rowScoped =
        (excelGo ay u db acc sheets).1.processed := by
  intro sheets
  induction sheets with
  | nil => intro db acc hP; simpa [excelGo] using hP
  | cons sh rest ih =>
    intro db acc hP
    rw [excelGo_cons]
    by_cases hv : validSheet sh = true
    · rw [processSheet_valid ay u db acc sh hv]
      apply ih
      exact processRows_counts ay u "העלאה ממשו\"ב"
        (fun _ i msg => ErrEntry.excelRowErr sh.name (i + 1) msg)
        (fun _ _ _ => rfl) (sheetRows sh) db 3 acc hP
    · have hv' : validSheet sh = false := by
        revert hv; cases validSheet sh <;> simp
      obtain ⟨hdb, hrows, hc, hu2, hs2, hp2, he2⟩ :=
        processSheet_invalid ay u db acc sh hv'
      apply ih
      rw [hc, hu2, hs2, hp2, he2]
      exact hP

end Server

/-! ## Claim C7: the grade/cycle round-trip law -/

theorem roundtrip_aux (g : String) (k y nowYear : Nat)
    (hgne : (g == "") = false)
    (hfind : Frontend.gradeOrder.findIdx? (fun x => x == g) = some k)
    (hget : Frontend.gradeOrder.get? k = some g)
    (hk : k ≤ 5) (hy : 2000 + k ≤ y) :
    ∃ c, Frontend.calculateCycleFromGrade g y = some c ∧
      Frontend.calculateGradeFromCycle nowYear c y = some g := by
  have hyne : (y == 0) = false := by
    have : y ≠ 0 := by omega
    simpa using this
  refine ⟨natToDec (y - k), ?_, ?_⟩
  · simp only [Frontend.calculateCycleFromGrade, hgne, hyne, Bool.or_self,
      Bool.false_eq_true, if_false, hfind]
    have hc : (((y : Int) - (k : Int) < 2000 : Bool) ||
        ((y : Int) - (k : Int) > (y : Int) + 1 : Bool)) = false := by
      simp only [Bool.or_eq_false_iff, decide_eq_false_iff_not]
      constructor <;> omega
    simp only [hc, Bool.false_eq_true, if_false]
    have htn : ((y : Int) - (k : Int)).toNat = y - k := by omega
    rw [htn]
  · have hcne : (natToDec (y - k) == "") = false := natToDec_ne_empty _
    have hparse : parseDec (natToDec (y - k)) = some (y - k) :=
      parseDec_natToDec _
    have hstat : Frontend.getCycleStatus nowYear (natToDec (y - k)) y =
        some "active" := by
      simp only [Frontend.getCycleStatus, hcne, hyne, Bool.false_eq_true,
        if_false, hparse]
      have h1 : ¬((y : Int) - ((y - k : Nat) : Int) < 0) := by omega
      have h2 : ¬((y : Int) - ((y - k : Nat) : Int) >
          (Frontend.LAST_GRADE_INDEX : Int)) := by
        have h5 : Frontend.LAST_GRADE_INDEX = 5 := rfl
        rw [h5]
        push_cast
        omega
      rw [if_neg h1, if_neg h2]
    simp only [Frontend.calculateGradeFromCycle, hcne, hyne,
      Bool.false_eq_true, if_false, hstat, hparse]
    have hnat : ((y : Int) - ((y - k : Nat) : Int)).toNat = k := by omega
    simp only [beq_self_eq_true, if_true, hnat]
    exact hget

/-- C7 (corrected): the claim asserts `cycleFromGrade(g, y)` is defined
for every recognized grade and every reference year; it is not — for
the entry grade and reference year 1999 the derived cycle 1999 falls
below the plausibility window `[2000, y + 1]` and the function returns
none. -/
theorem C7_counterexample :
    "ט\x27" ∈ Frontend.gradeOrder ∧
    Frontend.calculateCycleFromGrade "ט\x27" 1999 = none := by
  constructor
  · decide
  · rfl

/-- C7 (amended): for every recognized grade `g` (located at index `k`
of `gradeOrder`) and every reference year `y` with `2000 + k ≤ y` (so
the derived cycle lies in the plausibility window), `cycleFromGrade`
is defined and `gradeFromCycle(cycleFromGrade(g, y), y) = g`. -/
theorem C7_roundtrip (g : String) (k y nowYear : Nat)
    (hfind : Frontend.gradeOrder.findIdx? (fun x => x == g) = some k)
    (hget : Frontend.gradeOrder.get? k = some g)
    (hy : 2000 + k ≤ y) :
    ∃ c, Frontend.calculateCycleFromGrade g y = some c ∧
      Frontend.calculateGradeFromCycle nowYear c y = some g := by
  have hk : k ≤ 5 := by
    by_contra hk5
    have : Frontend.gradeOrder.get? k = none := by
      apply List.get?_eq_none.mpr
      have : Frontend.gradeOrder.length = 6 := rfl
      omega
    rw [this] at hget
    cases hget
  have hgne : (g == "") = false := by
    have hmem : g ∈ Frontend.gradeOrder := List.get?_mem hget
    fin_cases hmem <;> rfl
  exact roundtrip_aux g k y nowYear hgne hfind hget hk hy

/-- Witness for C7_roundtrip at grade י"א (index 2) and year 2024. -/
theorem C7_roundtrip_witness :
    Frontend.gradeOrder.findIdx? (fun x => x == "י\"א") = some 2 ∧
    Frontend.gradeOrder.get? 2 = some "י\"א" ∧ 2000 + 2 ≤ 2024 ∧
    ∃ c, Frontend.calculateCycleFromGrade "י\"א" 2024 = some c ∧
      Frontend.calculateGradeFromCycle 0 c 2024 = some "י\"א" :=
  ⟨by decide, by decide, by decide,
    C7_roundtrip "י\"א" 2 2024 0 (by decide) (by decide) (by decide)⟩

/-! ## Frame lemmas: which operations can touch the students table -/

theorem insertHistory_students (db : DB) (h : HistInsert) :
    (insertHistory db h).2.students = db.students := by
  unfold insertHistory
  split <;> rfl

theorem logFieldChanges_students (id : Nat) (u l : Option String) :
    ∀ (fs : List StudentModel.FieldTrack) (db : DB),
      (StudentModel.logFieldChanges db id fs u l).2.students = db.students := by
  intro fs
  induction fs with
  | nil => intro db; rfl
  | cons f rest ih =>
    intro db
    unfold StudentModel.logFieldChanges
    split
    · rcases hins : insertHistory db
        { studentId := id, changeType := "field_update",
          fieldName := some f.name, oldValue := some f.old,
          newValue := some f.new, location := l, changedBy := u,
          changeDescription := f.name ++ " שונה מ-\"" ++ f.old ++
            "\" ל-\"" ++ f.new ++ "\"" } with ⟨res, db₁⟩
      have hst : db₁.students = db.students := by
        have := insertHistory_students db
          { studentId := id, changeType := "field_update",
            fieldName := some f.name, oldValue := some f.old,
            newValue := some f.new, location := l, changedBy := u,
            changeDescription := f.name ++ " שונה מ-\"" ++ f.old ++
              "\" ל-\"" ++ f.new ++ "\"" }
        rw [hins] at this
        exact this
      cases res with
      | error e => exact hst
      | ok _ =>
        show (StudentModel.logFieldChanges db₁ id rest u l).2.students =
          db.students
        rw [ih db₁]
        exact hst
    · exact ih db


/-! ## Claim C8: imports never change a student's status -/

/-- C8 (confirmed): for every reconciliation row step on a well-formed
store, no pre-existing student's `status` changes — the update path
copies `existingStudent.status` into `updateData` and `status` is not
in the change-detection field set (which reads only lastName,
firstName, grade, stream, gender, track and cycle). -/
theorem C8_import_preserves_status (ay : Nat) (u l : String) (db : DB)
    (r : Server.RawRow) (hWF : db.WF) :
    (∀ s ∈ db.students, ∀ s' ∈ (Server.rowStep ay u l db r).2.students,
      s'.id = s.id → s'.status = s.status) ∧
    (∀ (ex : Student) (st cyc : String),
      Server.rowHasChanges { ex with status := st } r cyc =
        Server.rowHasChanges ex r cyc) := by
  obtain ⟨hchain, hlt, hpw, _, _⟩ := hWF
  have hidne := Server.pairwise_id_ne hchain
  refine ⟨?_, fun ex st cyc => rfl⟩
  intro s hs s' hs' hid
  cases hM : Server.matchesOf db.students r.idNumber with
  | nil =>
    by_cases hdup : ((DB.tick db).students.any (fun t => t.idNumber ==
        (⟨r.idNumber, r.lastName, r.firstName, r.grade, r.stream,
          r.gender, r.track, "לומד", Server.createCycle ay r.grade⟩ :
          StudentData).idNumber)) = true
    · have hrw : (Server.rowStep ay u l db r).2.students = db.students := by
        simp only [Server.rowStep, Server.searchIdNumber_eq, hM,
          StudentModel.create, insertStudent, hdup, if_true]
        rfl
      rw [hrw] at hs'
      rw [Server.eq_of_mem_same_id hidne hs' hs hid]
    · have hdup' : ((DB.tick db).students.any (fun t => t.idNumber ==
          (⟨r.idNumber, r.lastName, r.firstName, r.grade, r.stream,
            r.gender, r.track, "לומד", Server.createCycle ay r.grade⟩ :
            StudentData).idNumber)) = false := by
        revert hdup
        cases ((DB.tick db).students.any (fun t => t.idNumber ==
          (⟨r.idNumber, r.lastName, r.firstName, r.grade, r.stream,
            r.gender, r.track, "לומד", Server.createCycle ay r.grade⟩ :
            StudentData).idNumber)) <;> simp
      have hfresh : ∀ t ∈ (DB.tick db).students,
          t.id ≠ (DB.tick db).nextStudentId :=
        fun t ht => Nat.ne_of_lt (hlt t ht)
      have hcre := create_eq (DB.tick db)
        ⟨r.idNumber, r.lastName, r.firstName, r.grade, r.stream,
          r.gender, r.track, "לומד", Server.createCycle ay r.grade⟩
        (some u) (some l) hdup' hfresh
      have hrw : (Server.rowStep ay u l db r).2.students =
          db.students ++ [newStudent (DB.tick db)
            ⟨r.idNumber, r.lastName, r.firstName, r.grade, r.stream,
              r.gender, r.track, "לומד", Server.createCycle ay r.grade⟩] := by
        simp only [Server.rowStep, Server.searchIdNumber_eq, hM]
        rw [hcre]
        rfl
      rw [hrw] at hs'
      rcases List.mem_append.mp hs' with h | h
      · rw [Server.eq_of_mem_same_id hidne h hs hid]
      · rw [List.mem_singleton] at h
        subst h
        exfalso
        have h1 : s.id < db.nextStudentId := hlt s hs
        have h2 : (newStudent (DB.tick db)
            ⟨r.idNumber, r.lastName, r.firstName, r.grade, r.stream,
              r.gender, r.track, "לומד", Server.createCycle ay r.grade⟩).id =
            db.nextStudentId := rfl
        omega
  | cons ex rest =>
    have hexmem : ex ∈ db.students := by
      have hxm : ex ∈ Server.matchesOf db.students r.idNumber := by
        rw [hM]
        exact List.mem_cons_self _ _
      exact Server.mem_of_matches hxm
    by_cases hchg : Server.rowHasChanges ex r
        (Server.updCycle ay r.grade ex.cycle) = true
    · have hfind : db.students.find? (fun t => t.id == ex.id) =
          some ex := Server.find?_id_of_mem hidne hexmem
      by_cases hcol : (db.students.any (fun t =>
          t.id != ex.id && t.idNumber ==
            (⟨r.idNumber, r.lastName, r.firstName, r.grade, r.stream,
              r.gender, r.track, ex.status,
              Server.updCycle ay r.grade ex.cycle⟩ :
              StudentData).idNumber)) = true
      · have hrw : (Server.rowStep ay u l db r).2.students = db.students := by
          simp only [Server.rowStep, Server.searchIdNumber_eq, hM, hchg,
            if_true, StudentModel.update, StudentModel.getById, DB.tick,
            hfind, updateStudentRow, hcol]
        rw [hrw] at hs'
        rw [Server.eq_of_mem_same_id hidne hs' hs hid]
      · have hcol' : (db.students.any (fun t =>
            t.id != ex.id && t.idNumber ==
              (⟨r.idNumber, r.lastName, r.firstName, r.grade, r.stream,
                r.gender, r.track, ex.status,
                Server.updCycle ay r.grade ex.cycle⟩ :
                StudentData).idNumber)) = false := by
          revert hcol
          cases (db.students.any (fun t =>
            t.id != ex.id && t.idNumber ==
              (⟨r.idNumber, r.lastName, r.firstName, r.grade, r.stream,
                r.gender, r.track, ex.status,
                Server.updCycle ay r.grade ex.cycle⟩ :
                StudentData).idNumber)) <;> simp
        obtain ⟨db', h1, h2, h3, evts, h4, h5⟩ := update_eq (DB.tick db) ex.id
          ⟨r.idNumber, r.lastName, r.firstName, r.grade, r.stream,
            r.gender, r.track, ex.status, Server.updCycle ay r.grade ex.cycle⟩
          (some u) (some l) ex hfind hcol'
        have hrw : (Server.rowStep ay u l db r).2.students = db'.students := by
          simp only [Server.rowStep, Server.searchIdNumber_eq, hM, hchg,
            if_true]
          rw [h1]
        rw [hrw, h2] at hs'
        obtain ⟨x, hx, hfx⟩ := List.mem_map.mp hs'
        have hxid : x.id = s.id := by
          rw [← hid, ← hfx]
          by_cases hxe : (x.id == ex.id) = true <;> simp [hxe, applyData]
        have hxs : x = s := Server.eq_of_mem_same_id hidne hx hs hxid
        subst hxs
        rw [← hfx]
        by_cases hxe : (x.id == ex.id) = true
        · have : x = ex := Server.eq_of_mem_same_id hidne hx hexmem
            (by simpa using hxe)
          subst this
          simp [hxe, applyData]
        · simp [hxe]
    · have hchg2 : Server.rowHasChanges ex r
          (Server.updCycle ay r.grade ex.cycle) = false := by
        revert hchg
        cases Server.rowHasChanges ex r (Server.updCycle ay r.grade ex.cycle) <;> simp
      have hrw : (Server.rowStep ay u l db r).2.students = db.students := by
        simp only [Server.rowStep, Server.searchIdNumber_eq, hM, hchg2,
          Bool.false_eq_true, if_false]
        rfl
      rw [hrw] at hs'
      rw [Server.eq_of_mem_same_id hidne hs' hs hid]

/-- Witness for C8 at a concrete store and row. -/
theorem C8_import_preserves_status_witness :
    (⟨[⟨1, "123456789", "כהן", "דוד", "ט\x27", "1", "זכר", "מדעים",
        "לומד", "2024", 0, 0⟩], [], 2, 1, 0⟩ : DB).WF ∧
    (∀ s ∈ (⟨[⟨1, "123456789", "כהן", "דוד", "ט\x27", "1", "זכר", "מדעים",
        "לומד", "2024", 0, 0⟩], [], 2, 1, 0⟩ : DB).students,
      ∀ s' ∈ (Server.rowStep 2024 "u" "loc"
        (⟨[⟨1, "123456789", "כהן", "דוד", "ט\x27", "1", "זכר", "מדעים",
          "לומד", "2024", 0, 0⟩], [], 2, 1, 0⟩ : DB)
        ⟨"123456789", "לוי", "דוד", "ט\x27", "1", "זכר", "מדעים"⟩).2.students,
      s'.id = s.id → s'.status = s.status) :=
  ⟨by decide,
    (C8_import_preserves_status 2024 "u" "loc" _
      ⟨"123456789", "לוי", "דוד", "ט\x27", "1", "זכר", "מדעים"⟩
      (by decide)).1⟩

/-! ## Claim C1: internal consistency of ReconciliationResult -/

/-- A sheet whose header row names only the natural-key column. -/
def c1Sheet : Server.Sheet := ⟨"גיליון1", "שכבה י", ["ת.ז"], []⟩

/-- C1 (corrected): the claim asserts `errors` contains no entries that
do not correspond to a processed row; a sheet with missing headers
produces an errors entry while `processed` stays 0. -/
theorem C1_counterexample :
    (Server.excelReconcile 2024 "user" DB.empty [c1Sheet]).1.processed = 0 ∧
    (Server.excelReconcile 2024 "user" DB.empty [c1Sheet]).1.errors.length = 1 ∧
    ((Server.excelReconcile 2024 "user" DB.empty [c1Sheet]).1.errors.all
      Server.rowScoped) = false := by
  refine ⟨rfl, rfl, rfl⟩

/-- C1 (amended): each processed row contributes to exactly one of
created, updated, skipped, or one row-scoped error entry — so
`created + updated + skipped + (row-scoped errors) = processed` — for
both reconciliation endpoints; sheet-level missing-header entries can
additionally appear in `errors` without a corresponding processed row. -/
theorem C1_counts_consistent (ay : Nat) (u : String) (db : DB)
    (sheets : List Server.Sheet) (rows : List Server.RawRow) :
    ((Server.excelReconcile ay u db sheets).1.created +
      (Server.excelReconcile ay u db sheets).1.updated +
      (Server.excelReconcile ay u db sheets).1.skipped +
      (Server.excelReconcile ay u db sheets).1.errors.countP Server.rowScoped =
      (Server.excelReconcile ay u db sheets).1.processed) ∧
    ((Server.pastedReconcile ay u db rows).1.created +
      (Server.pastedReconcile ay u db rows).1.updated +
      (Server.pastedReconcile ay u db rows).1.skipped +
      (Server.pastedReconcile ay u db rows).1.errors.countP Server.rowScoped =
      (Server.pastedReconcile ay u db rows).1.processed) := by
  constructor
  · exact Server.excelGo_counts ay u sheets db Server.RecResults.init rfl
  · exact Server.processRows_counts ay u "העלאה ממשו\"ב (הדבקה)"
      (fun d _ msg => Server.ErrEntry.pastedRowErr d.idNumber msg)
      (fun _ _ _ => rfl) rows db 0 Server.RecResults.init rfl

/-! ## Claim C2: idempotence of reconciliation -/

/-- Two rows whose natural keys overlap as substrings: "456" is a
substring of "123456". -/
def c2Row1 : Server.RawRow := ⟨"123456", "כהן", "אבי", "ט", "1", "ז", "מדעים"⟩

def c2Row2 : Server.RawRow := ⟨"456", "לוי", "דנה", "ט", "1", "ז", "מדעים"⟩

def c2Sheet : Server.Sheet :=
  ⟨"שכבה ט", "שכבה ט",
    ["ת.ז", "שם משפחה", "שם פרטי", "כיתה", "מקבילה", "מין", "מגמה"],
    [c2Row1, c2Row2]⟩

/-- C2 (corrected): re-running reconcile on an unchanged source is NOT
idempotent in general.  Row 2's key "456" ILIKE-matches the student row
1 created ("123456") and renames its natural key to "456"; the second
run then finds no match for "123456" and creates a second student:
`created = 1 ≠ 0` and `skipped ≠ processed` on the second run. -/
theorem C2_counterexample :
    (Server.excelReconcile 2024 "user"
      (Server.excelReconcile 2024 "user" DB.empty [c2Sheet]).2
      [c2Sheet]).1.created = 1 ∧
    (Server.excelReconcile 2024 "user"
      (Server.excelReconcile 2024 "user" DB.empty [c2Sheet]).2
      [c2Sheet]).1.skipped ≠
    (Server.excelReconcile 2024 "user"
      (Server.excelReconcile 2024 "user" DB.empty [c2Sheet]).2
      [c2Sheet]).1.processed := by
  refine ⟨rfl, by decide⟩

/-- C2 (amended): re-running reconcile against an unchanged source IS
idempotent — second run yields `created = 0`, `updated = 0`,
`skipped = processed` and an unchanged store — provided natural-key
matching is exact for this run: no row's key ILIKE-matches a different
row's key, and any ILIKE hit against the initial store is an exact key
equality. -/
theorem C2_idempotent_of_exact_matching (ay : Nat) (u : String) (db0 : DB)
    (sheets : List Server.Sheet)
    (hWF : db0.WF)
    (hHA : Server.NoCrossMatch (Server.allRows sheets))
    (hEx : Server.ExactWrt db0.students (Server.allRows sheets)) :
    (Server.excelReconcile ay u
      (Server.excelReconcile ay u db0 sheets).2 sheets).1.created = 0 ∧
    (Server.excelReconcile ay u
      (Server.excelReconcile ay u db0 sheets).2 sheets).1.updated = 0 ∧
    (Server.excelReconcile ay u
      (Server.excelReconcile ay u db0 sheets).2 sheets).1.skipped =
      (Server.excelReconcile ay u
        (Server.excelReconcile ay u db0 sheets).2 sheets).1.processed ∧
    (Server.excelReconcile ay u
      (Server.excelReconcile ay u db0 sheets).2 sheets).2.students =
      (Server.excelReconcile ay u db0 sheets).2.students := by
  obtain ⟨h1, h2, h3, _, _⟩ := hWF
  have hInv0 : Server.Inv (Server.allRows sheets) db0 := ⟨h1, h2, h3, hEx⟩
  have hsub : ∀ sh ∈ sheets,
      (Server.sheetRows sh).Sublist (Server.allRows sheets) := by
    intro sh hsh
    exact List.sublist_flatten_of_mem (List.mem_map_of_mem _ hsh)
  obtain ⟨hInv1, _, hsettled⟩ := Server.excelGo_settles ay u
    (Server.allRows sheets) hHA sheets db0 Server.RecResults.init hsub hInv0
  obtain ⟨n, g1, g2, g3, g4, g5⟩ := Server.excelGo_all_settled ay u sheets
    (Server.excelReconcile ay u db0 sheets).2 Server.RecResults.init hsettled
  exact ⟨g1, g2, g4.trans g3.symm, g5⟩

/-- One well-behaved row for the idempotence witness. -/
def c2wSheet : Server.Sheet :=
  ⟨"שכבה ט", "שכבה ט",
    ["ת.ז", "שם משפחה", "שם פרטי", "כיתה", "מקבילה", "מין", "מגמה"],
    [⟨"111222333", "כהן", "רות", "ט", "1", "נ", "מדעים"⟩]⟩

/-- Witness for C2 at a concrete store and workbook. -/
theorem C2_idempotent_witness :
    DB.empty.WF ∧ Server.NoCrossMatch (Server.allRows [c2wSheet]) ∧
    Server.ExactWrt DB.empty.students (Server.allRows [c2wSheet]) ∧
    ((Server.excelReconcile 2024 "user"
        (Server.excelReconcile 2024 "user" DB.empty [c2wSheet]).2
        [c2wSheet]).1.created = 0 ∧
      (Server.excelReconcile 2024 "user"
        (Server.excelReconcile 2024 "user" DB.empty [c2wSheet]).2
        [c2wSheet]).1.updated = 0 ∧
      (Server.excelReconcile 2024 "user"
        (Server.excelReconcile 2024 "user" DB.empty [c2wSheet]).2
        [c2wSheet]).1.skipped =
        (Server.excelReconcile 2024 "user"
          (Server.excelReconcile 2024 "user" DB.empty [c2wSheet]).2
          [c2wSheet]).1.processed ∧
      (Server.excelReconcile 2024 "user"
        (Server.excelReconcile 2024 "user" DB.empty [c2wSheet]).2
        [c2wSheet]).2.students =
        (Server.excelReconcile 2024 "user" DB.empty [c2wSheet]).2.students) :=
  ⟨by decide, by decide, by decide,
    C2_idempotent_of_exact_matching 2024 "user" DB.empty [c2wSheet]
      (by decide) (by decide) (by decide)⟩

/-! ## Claim C3: history events written by create -/

def c3Data : StudentData :=
  ⟨"123456789", "כהן", "דוד", "ט\x27", "1", "זכר", "מדעי המחשב", "לומד", "2024"⟩

/-- C3 (corrected): after a create, exactly two history events exist —
one `start_studies` and one `created` — but they are NOT both
timestamped at the student's `createdAt`.  On the empty store the
student's `createdAt` is clock 0, the `start_studies` event is
backdated to 0, and the `created` event carries its own insertion time
3 (the `created` INSERT has no explicit `created_at`, db.js lines
348-357). -/
theorem C3_counterexample :
    (StudentModel.create DB.empty c3Data (some "admin") none).2.history.map
      (fun e => (e.changeType, e.createdAt)) =
      [("start_studies", 0), ("created", 3)] ∧
    (StudentModel.create DB.empty c3Data (some "admin") none).2.students.map
      (fun s => s.createdAt) = [0] ∧
    ((StudentModel.create DB.empty c3Data (some "admin") none).2.history.all
      (fun e => e.createdAt == 0)) = false := by
  refine ⟨rfl, rfl, rfl⟩

/-- C3 (amended): for every successful create on a well-formed store,
exactly two HistoryEvents exist for the new student immediately after —
one `start_studies` timestamped at the student's `createdAt`, and one
`created` timestamped at its own (strictly later) insertion time. -/
theorem C3_create_two_events (db : DB) (d : StudentData)
    (u l : Option String) (hWF : db.WF)
    (hdup : db.students.any (fun s => s.idNumber == d.idNumber) = false) :
    ∃ s db', StudentModel.create db d u l = (Except.ok s, db') ∧
      (db'.history.filter (fun e => e.studentId == s.id)).map
        (fun e => (e.changeType, e.createdAt)) =
        [("start_studies", s.createdAt), ("created", db.clock + 3)] ∧
      s.createdAt < db.clock + 3 := by
  obtain ⟨_, hlt, _, hfk, _⟩ := hWF
  have hfresh : ∀ t ∈ db.students, t.id ≠ db.nextStudentId :=
    fun t ht => Nat.ne_of_lt (hlt t ht)
  have hc := create_eq db d u l hdup hfresh
  refine ⟨newStudent db d, _, hc, ?_, by
    show db.clock < db.clock + 3
    omega⟩
  have hold : db.history.filter
      (fun e => e.studentId == (newStudent db d).id) = [] := by
    rw [List.filter_eq_nil_iff]
    intro e he
    obtain ⟨t, ht, htid⟩ := hfk e he
    have h1 := hlt t ht
    simp only [newStudent]
    intro hbeq
    rw [beq_iff_eq] at hbeq
    omega
  show ((db.history ++ [startEvt db d u l, createdEvt db d u l]).filter
      (fun e => e.studentId == (newStudent db d).id)).map
      (fun e => (e.changeType, e.createdAt)) = _
  rw [List.filter_append, hold]
  simp [startEvt, createdEvt, newStudent]

/-- Witness for C3 on the empty store. -/
theorem C3_create_two_events_witness :
    DB.empty.WF ∧
    (DB.empty.students.any (fun s => s.idNumber == c3Data.idNumber)) = false ∧
    ∃ s db', StudentModel.create DB.empty c3Data (some "admin") none =
        (Except.ok s, db') ∧
      (db'.history.filter (fun e => e.studentId == s.id)).map
        (fun e => (e.changeType, e.createdAt)) =
        [("start_studies", s.createdAt), ("created", DB.empty.clock + 3)] ∧
      s.createdAt < DB.empty.clock + 3 :=
  ⟨by decide, by decide,
    C3_create_two_events DB.empty c3Data (some "admin") none
      (by decide) (by decide)⟩

/-! ## Claim C4: field_update events written by update -/

/-- C4 (confirmed): for every update of an existing student whose
candidate natural key does not collide with a different record, the
call succeeds and appends exactly one `field_update` event per tracked
field whose old value differs from the new one, carrying that field's
display label, old value and new value — and zero events (still
succeeding) when no tracked field changed. -/
theorem C4_update_events (db : DB) (id : Nat) (d : StudentData)
    (u l : Option String) (oldS : Student)
    (hfind : db.students.find? (fun t => t.id == id) = some oldS)
    (hnodup : db.students.any
      (fun t => t.id != id && t.idNumber == d.idNumber) = false) :
    ∃ s' db' evts, StudentModel.update db id d u l =
        (Except.ok (some s'), db') ∧
      db'.history = db.history ++ evts ∧
      evts.map (fun e => (e.changeType, e.fieldName, e.oldValue, e.newValue)) =
        ((StudentModel.fieldsToTrack oldS d).filter
          (fun f => f.old != f.new)).map
          (fun f => ("field_update", some f.name, some f.old, some f.new)) ∧
      (((StudentModel.fieldsToTrack oldS d).all
        (fun f => f.old == f.new)) = true → evts = []) := by
  obtain ⟨db', h1, h2, h3, evts, h4, h5⟩ := update_eq db id d u l oldS hfind hnodup
  refine ⟨applyData oldS d (db.clock + 1), db', evts, h1, h4, h5, ?_⟩
  intro hall
  have hfilter : (StudentModel.fieldsToTrack oldS d).filter
      (fun f => f.old != f.new) = [] := by
    rw [List.filter_eq_nil_iff]
    intro f hf
    have := List.all_eq_true.mp hall f hf
    simp at this
    simp [this]
  rw [hfilter] at h5
  simp only [List.map_nil] at h5
  exact List.map_eq_nil_iff.mp h5

/-- Scenario-C-style witness: only the track changes. -/
def c4Db : DB :=
  ⟨[⟨1, "123456789", "כהן", "דוד", "ט\x27", "1", "זכר", "Physics",
    "לומד", "2024", 0, 0⟩], [], 2, 1, 7⟩

def c4Data : StudentData :=
  ⟨"123456789", "כהן", "דוד", "ט\x27", "1", "זכר", "Biology", "לומד", "2024"⟩

/-- Witness for C4: updating only the track appends the matching single
`field_update` event. -/
theorem C4_update_events_witness :
    c4Db.students.find? (fun t => t.id == 1) = some
      ⟨1, "123456789", "כהן", "דוד", "ט\x27", "1", "זכר", "Physics",
        "לומד", "2024", 0, 0⟩ ∧
    (c4Db.students.any
      (fun t => t.id != 1 && t.idNumber == c4Data.idNumber)) = false ∧
    ∃ s' db' evts, StudentModel.update c4Db 1 c4Data (some "admin") none =
        (Except.ok (some s'), db') ∧
      db'.history = c4Db.history ++ evts ∧
      evts.map (fun e => (e.changeType, e.fieldName, e.oldValue, e.newValue)) =
        ((StudentModel.fieldsToTrack
          ⟨1, "123456789", "כהן", "דוד", "ט\x27", "1", "זכר", "Physics",
            "לומד", "2024", 0, 0⟩ c4Data).filter
          (fun f => f.old != f.new)).map
          (fun f => ("field_update", some f.name, some f.old, some f.new)) ∧
      (((StudentModel.fieldsToTrack
        ⟨1, "123456789", "כהן", "דוד", "ט\x27", "1", "זכר", "Physics",
          "לומד", "2024", 0, 0⟩ c4Data).all
        (fun f => f.old == f.new)) = true → evts = []) :=
  ⟨by decide, by decide,
    C4_update_events c4Db 1 c4Data (some "admin") none _
      (by decide) (by decide)⟩

/-! ## Claims C5 and C6: delete and single-record atomicity -/

def c5Db : DB :=
  ⟨[⟨1, "123456789", "כהן", "דוד", "ט\x27", "1", "זכר", "מדעים",
    "לומד", "2024", 0, 0⟩], [], 2, 1, 5⟩

/-- C5 (code_bug): `StudentModel.delete` removes the student row (the
cascade also removing its history), then INSERTs the `deleted` event
referencing the already-deleted id — which violates the
`student_history.student_id` foreign key.  The delete therefore throws
after committing the row removal, and no `deleted` event is ever
persisted.  The NotFound path behaves as claimed. -/
theorem C5_delete_fk_violation :
    (StudentModel.delete c5Db 1 (some "admin") none).1 =
      Except.error fkViolationMsg ∧
    (StudentModel.delete c5Db 1 (some "admin") none).2.students = [] ∧
    (StudentModel.delete c5Db 1 (some "admin") none).2.history = [] ∧
    (StudentModel.delete c5Db 999 (some "admin") none).1 = Except.ok none ∧
    (StudentModel.delete c5Db 999 (some "admin") none).2.students =
      c5Db.students := by
  refine ⟨rfl, rfl, rfl, rfl, rfl⟩

def c6Db : DB :=
  ⟨[⟨7, "555444333", "לוי", "רות", "י\x27", "2", "נקבה", "ביולוגיה",
    "לומד", "2023", 4, 4⟩],
    [⟨1, 7, "start_studies", none, none, none, none, none,
      "התחלת לימודים", 4⟩], 8, 2, 9⟩

/-- C6 (code_bug): single-record mutations are not atomic — no
transaction wraps the statements.  Deleting an existing student
demonstrates an observable partial commit: the mutation raises, yet the
student row (and its cascaded history) is already durably gone and the
required `deleted` ledger entry was never written. -/
theorem C6_delete_partial_commit :
    (StudentModel.delete c6Db 7 none none).1 =
      Except.error fkViolationMsg ∧
    c6Db.students.length = 1 ∧
    (StudentModel.delete c6Db 7 none none).2.students = [] ∧
    ((StudentModel.delete c6Db 7 none none).2.history.any
      (fun e => e.changeType == "deleted")) = false := by
  refine ⟨rfl, rfl, rfl, rfl⟩

/-! ## Claim C9: per-row fault isolation -/

def c9Db : DB :=
  ⟨[⟨1, "123456", "כהן", "אבי", "ט\x27", "1", "זכר", "מדעים",
      "לומד", "2024", 0, 0⟩,
    ⟨2, "456", "לוי", "דנה", "ט\x27", "1", "זכר", "מדעים",
      "לומד", "2024", 0, 0⟩], [], 3, 1, 10⟩

def c9Sheet : Server.Sheet :=
  ⟨"גיליון", "שכבה ט",
    ["ת.ז", "שם משפחה", "שם פרטי", "כיתה", "מקבילה", "מין", "מגמה"],
    [⟨"456", "מזרחי", "רון", "ט", "2", "ז", "אומנות"⟩]⟩

/-- C9 (corrected): the claim says a row-scoped error string includes
the row's natural key when available.  For the Excel endpoint it does
not: the pushed string is `Sheet <name>, Row <n>: <message>` (server.js
line 979).  Here row "456" fails with a duplicate-key error (its ILIKE
lookup matched student "123456" first and the update collides with
student "456"), the batch still completes, and the recorded string does
not contain "456". -/
theorem C9_counterexample :
    (Server.excelReconcile 2024 "user" c9Db [c9Sheet]).1.processed = 1 ∧
    (Server.excelReconcile 2024 "user" c9Db [c9Sheet]).1.errors.length = 1 ∧
    (Server.excelReconcile 2024 "user" c9Db [c9Sheet]).1.errors.map
      (fun e => strContains (Server.renderErr e) "456") = [false] := by
  refine ⟨rfl, rfl, rfl⟩

/-- C9 (amended): reconcile never raises for a per-row fault — every
row past the falsy filter is processed regardless of earlier errors,
each fault is recorded as one row-scoped entry, and the pasted
endpoint's error strings contain the row's natural key (the Excel
endpoint's identify the row by sheet name and row number instead). -/
theorem C9_row_fault_isolation (ay : Nat) (u : String) (db : DB)
    (rows : List Server.RawRow) :
    (Server.pastedReconcile ay u db rows).1.processed =
      rows.countP Server.eligible ∧
    ((Server.pastedReconcile ay u db rows).1.errors.all
      Server.rowScoped) = true ∧
    (∀ k m : String,
      strContains (Server.renderErr (Server.ErrEntry.pastedRowErr k m)) k =
        true) := by
  refine ⟨?_, ?_, ?_⟩
  · have h := Server.processRows_processed ay u "העלאה ממשו\"ב (הדבקה)"
      (fun d _ msg => Server.ErrEntry.pastedRowErr d.idNumber msg)
      rows db 0 Server.RecResults.init
    simpa [Server.RecResults.init] using h
  · exact Server.processRows_errors_scoped ay u "העלאה ממשו\"ב (הדבקה)"
      (fun d _ msg => Server.ErrEntry.pastedRowErr d.idNumber msg)
      (fun _ _ _ => rfl) rows db 0 Server.RecResults.init rfl
  · intro k m
    show strContains ("ת.ז " ++ k ++ ": " ++ m) k = true
    have h := strContains_append "ת.ז " k (": " ++ m)
    rw [← String.append_assoc] at h
    exact h

/-! ## Claim C10: the natural-key lookup is a substring ILIKE match -/

def c10Db : DB :=
  ⟨[⟨1, "123456789", "כהן", "דוד", "ט\x27", "1", "זכר", "מדעים",
    "לומד", "2024", 0, 0⟩], [], 2, 1, 0⟩

def c10Row : Server.RawRow :=
  ⟨"3456", "לוי", "שרה", "ט\x27", "1", "זכר", "מדעים"⟩

/-- C10 (confirmed): the bulk lookup uses `id_number ILIKE '%q%'`
(db.js lines 203-207) — a case-insensitive substring match, not exact
equality.  A row whose key "3456" is a strict substring of the stored
"123456789" is classified as an update of that student (no new student
is created, and the existing student's id is reused — its natural key
is even rewritten to the shorter key by the update). -/
theorem C10_substring_match :
    ilike "123456789" "3456" = true ∧
    ("3456" : String) ≠ "123456789" ∧
    (Server.pastedReconcile 2024 "user" c10Db [c10Row]).1.created = 0 ∧
    (Server.pastedReconcile 2024 "user" c10Db [c10Row]).1.updated = 1 ∧
    (Server.pastedReconcile 2024 "user" c10Db [c10Row]).2.students.map
      (fun s => (s.id, s.idNumber)) = [(1, "3456")] ∧
    ilike "AB123" "ab1" = true := by
  refine ⟨rfl, by decide, rfl, rfl, rfl, rfl⟩
